import Mathlib

/-!
terminal-chat: a shallow embedding of the broadcast hub and the client view state

Server side (`server/hub/hub.go`, `server/models/models.go`, `server/ws/websocket.go`):
the hub's registry and channel index, the buffered send queues, and the
coordinator's handling of register / unregister / decoded events.

Client side (`client/state/store.go`, `client/main.go`): the per-channel
message history and the handling of incoming events.

Modelling conventions
* A `*models.Client` is a pointer; Go compares map keys of that type by address.
  Pointers are natural numbers and the objects they point to live in `Hub.mem`.
* A Go `map[K]bool` whose values are always `true` is a list of keys; a
  `map[string]V` is an association list. The order of a list stands for the order
  in which `range` visits the map, which Go leaves unspecified: statements are
  quantified over all lists, and sequences of actions may reorder the maps.
* A buffered Go channel is its buffer, its capacity and a closed flag. Sending on a
  closed channel and closing a closed channel panic; a panic is an `Outcome.panic`
  carrying the memory at the moment of the panic.
-/

namespace TerminalChat

/-! ## Go channels of `[]byte` -/

/-- A `[]byte` payload, kept as the text it encodes. -/
abbrev Bytes := String

/-- Address of a `models.Client` object. -/
abbrev ClientPtr := Nat

/-- A buffered `chan []byte`: pending payloads (oldest first), capacity, closed flag. -/
structure Chan where
  buf : List Bytes
  cap : Nat
  closed : Bool
deriving DecidableEq, Repr

/-- The value of `make(chan []byte, n)`. -/
def makeChan (n : Nat) : Chan := { buf := [], cap := n, closed := false }

/-- Result of `select { case q <- m: ... default: ... }`. -/
inductive SendResult where
  | sent (q : Chan)
  | full
  | panic
deriving DecidableEq, Repr

/-- Non-blocking send: panics on a closed channel, enqueues at the tail when the
buffer has room, and falls to `default` otherwise. (Every send queue of the program
is made with capacity 256; a hand-over to a waiting receiver then happens only
with an empty buffer, where there is room anyway.) -/
def Chan.trySend (q : Chan) (m : Bytes) : SendResult :=
  if q.closed then SendResult.panic
  else if q.buf.length < q.cap then SendResult.sent { q with buf := q.buf ++ [m] }
  else SendResult.full

/-- The builtin `close(q)`: `none` is the panic on an already closed channel. -/
def Chan.close (q : Chan) : Option Chan :=
  if q.closed then none else some { q with closed := true }

/-- One receive `message, ok := <-q` as done by `writePump`: the oldest pending
payload is taken; buffered payloads of a closed channel are still delivered. -/
def Chan.recv (q : Chan) : Chan := { q with buf := q.buf.tail }

/-! ## `models.Client`, `models.Event` -/

/-- The fields of `models.Client` that the hub reads (`ID`, `UserID` and `Conn` are
never read by the hub). -/
structure Client where
  Username : String
  Send : Chan
deriving DecidableEq, Repr

/-- A decoded JSON value, as held in a `map[string]interface{}`. -/
inductive JsonValue where
  | null
  | bool (b : Bool)
  | number (q : ℚ)
  | string (s : String)
  | array (xs : List JsonValue)
  | object (kvs : List (String × JsonValue))

/-- The record `models.Event` (`Type` is written `Type_`). -/
structure Event where
  Type_ : String
  Channel : String
  From : String
  Timestamp : Int
  Content : String
  Data : List (String × JsonValue)

/-! ## Go maps as lists -/

/-- Set insertion `s[c] = true`. -/
def setInsert (s : List ClientPtr) (c : ClientPtr) : List ClientPtr :=
  if c ∈ s then s else s ++ [c]

/-- Set deletion `delete(s, c)`. -/
def setDelete (s : List ClientPtr) (c : ClientPtr) : List ClientPtr :=
  s.filter (fun x => decide (x ≠ c))

/-- The channel index `map[string]map[*models.Client]bool`. -/
abbrev ChannelMap := List (String × List ClientPtr)

/-- Lookup `m[k]` with its presence flag. -/
def mapGet : ChannelMap → String → Option (List ClientPtr)
  | [], _ => none
  | (k', v) :: rest, k => if k' = k then some v else mapGet rest k

/-- Assignment `m[k] = v`. -/
def mapSet : ChannelMap → String → List ClientPtr → ChannelMap
  | [], k, v => [(k, v)]
  | (k', v') :: rest, k, v =>
    if k' = k then (k, v) :: rest else (k', v') :: mapSet rest k v

/-- Deletion `delete(m, k)`. -/
def mapDelete (m : ChannelMap) (k : String) : ChannelMap :=
  m.filter (fun e => decide (e.1 ≠ k))

/-! ## The hub -/

/-- The hub's `clients` and `channels` maps together with the client objects the
pointers refer to. -/
structure Hub where
  mem : ClientPtr → Client
  clients : List ClientPtr
  channels : ChannelMap

/-- Result of a piece of coordinator code: it ran to its end, or it panicked. -/
inductive Outcome where
  | ok (h : Hub)
  | panic (h : Hub)

/-- The memory an outcome leaves behind. -/
def Outcome.hub : Outcome → Hub
  | Outcome.ok h => h
  | Outcome.panic h => h

/-- Whether the code ran to its end. -/
def Outcome.isOk : Outcome → Bool
  | Outcome.ok _ => true
  | Outcome.panic _ => false

/-- The hub of `NewHub()`: empty registry and index; no client object exists yet. -/
def NewHub : Hub :=
  { mem := fun _ => { Username := "", Send := makeChan 0 }, clients := [], channels := [] }

/-- Replace the send queue of the object at `c`. -/
def Hub.setSend (h : Hub) (c : ClientPtr) (q : Chan) : Hub :=
  { h with mem := Function.update h.mem c { h.mem c with Send := q } }

/-- The subscriber set of a channel (empty when the channel has no entry). -/
def Hub.subscribers (h : Hub) (channelID : String) : List ClientPtr :=
  (mapGet h.channels channelID).getD []

/-- The first statement of `joinChannel`: an empty subscriber set is stored when
`h.channels[channelID] == nil`. -/
def ensureChannel (m : ChannelMap) (channelID : String) : ChannelMap :=
  match mapGet m channelID with
  | none => mapSet m channelID []
  | some _ => m

/-- The function `Hub.joinChannel`: create the entry when absent, then add the first
registered client whose `Username` matches. -/
def joinChannel (h : Hub) (channelID username : String) : Hub :=
  let chans : ChannelMap := ensureChannel h.channels channelID
  match h.clients.find? (fun client => decide ((h.mem client).Username = username)) with
  | some client =>
    { h with channels :=
        mapSet chans channelID (setInsert ((mapGet chans channelID).getD []) client) }
  | none => { h with channels := chans }

/-- The function `Hub.leaveChannel`: remove the first subscriber whose `Username`
matches, then delete the entry when it is empty. -/
def leaveChannel (h : Hub) (channelID username : String) : Hub :=
  match mapGet h.channels channelID with
  | none => h
  | some clients =>
    let clients' : List ClientPtr :=
      match clients.find? (fun client => decide ((h.mem client).Username = username)) with
      | some client => setDelete clients client
      | none => clients
    if clients'.length = 0 then { h with channels := mapDelete h.channels channelID }
    else { h with channels := mapSet h.channels channelID clients' }

/-- The loop body of `broadcastToChannel` over the subscribers still to visit. -/
def fanOut (channelID : String) (message : Bytes) : List ClientPtr → Hub → Outcome
  | [], h => Outcome.ok h
  | client :: rest, h =>
    match (h.mem client).Send.trySend message with
    | SendResult.sent q => fanOut channelID message rest (h.setSend client q)
    | SendResult.full =>
      match (h.mem client).Send.close with
      | none => Outcome.panic h
      | some q =>
        fanOut channelID message rest
          { mem := (h.setSend client q).mem
            clients := setDelete h.clients client
            channels :=
              mapSet h.channels channelID (setDelete (h.subscribers channelID) client) }
    | SendResult.panic => Outcome.panic h

/-- The function `Hub.broadcastToChannel`. -/
def broadcastToChannel (h : Hub) (channelID : String) (message : Bytes) : Outcome :=
  match mapGet h.channels channelID with
  | some clients => fanOut channelID message clients h
  | none => Outcome.ok h

/-- The function `Hub.handleEvent`. -/
def handleEvent (h : Hub) (event : Event) (rawMessage : Bytes) : Outcome :=
  if event.Type_ = "join_channel" then Outcome.ok (joinChannel h event.Channel event.From)
  else if event.Type_ = "leave_channel" then
    Outcome.ok (leaveChannel h event.Channel event.From)
  else if event.Type_ = "send_message" then broadcastToChannel h event.Channel rawMessage
  else if event.Type_ = "typing_start" ∨ event.Type_ = "typing_stop" then
    broadcastToChannel h event.Channel rawMessage
  else if event.Type_ = "user_joined" ∨ event.Type_ = "user_left" then
    broadcastToChannel h event.Channel rawMessage
  else Outcome.ok h

/-- The `Register` case of `Hub.Run`. -/
def register (h : Hub) (client : ClientPtr) : Hub :=
  { h with clients := setInsert h.clients client }

/-- The `Unregister` case of `Hub.Run`. -/
def unregister (h : Hub) (client : ClientPtr) : Outcome :=
  if client ∈ h.clients then
    match (h.mem client).Send.close with
    | none => Outcome.panic { h with clients := setDelete h.clients client }
    | some q =>
      Outcome.ok
        { mem := (h.setSend client q).mem
          clients := setDelete h.clients client
          channels :=
            (h.channels.map (fun e => (e.1, setDelete e.2 client))).filter
              (fun e => decide (e.2.length ≠ 0)) }
  else Outcome.ok h

/-- What arrives on the hub's three request channels. -/
inductive Request where
  | register (client : ClientPtr)
  | unregister (client : ClientPtr)
  | broadcast (message : Bytes)

/-- One iteration of the `select` in `Hub.Run`; `unmarshal` is `json.Unmarshal` into a
`models.Event`, `none` being a decode error. -/
def Hub.run1 (unmarshal : Bytes → Option Event) (h : Hub) : Request → Outcome
  | Request.register client => Outcome.ok (register h client)
  | Request.unregister client => unregister h client
  | Request.broadcast message =>
    match unmarshal message with
    | none => Outcome.ok h
    | some event => handleEvent h event message

/-! ## Connections and the coordinator's environment -/

/-- The client object built by `HandleWebSocket` for the display name taken from the
query string. -/
def newClient (username : String) : Client :=
  { Username := if username = "" then "Anonymous" else username, Send := makeChan 256 }

/-- The part of `HandleWebSocket` after a successful upgrade: allocate the client
object at the (fresh) address `p`, then hand it to the hub's `Register` case. -/
def HandleWebSocket (h : Hub) (p : ClientPtr) (username : String) : Hub :=
  register { h with mem := Function.update h.mem p (newClient username) } p

/-- One receive of the `writePump` of the client at `p`. -/
def writePumpRecv (h : Hub) (p : ClientPtr) : Hub :=
  h.setSend p (h.mem p).Send.recv

/-- Two channel indexes with the same keys in the same positions whose subscriber
sets are rearrangements of each other. -/
def sameIndex : ChannelMap → ChannelMap → Bool
  | [], [] => true
  | (k, v) :: rest, (k', v') :: rest' =>
    decide (k = k') && decide (v.Perm v') && sameIndex rest rest'
  | _, _ => false

/-- What can happen to the hub's memory: a connection is accepted and registered, the
coordinator handles an unregister request or a decoded payload, some connection's
`writePump` takes a payload from its queue, or the maps present their keys in another
order (`reorder`; Go does not fix the order in which `range` visits a map). -/
inductive Action where
  | connect (p : ClientPtr) (username : String)
  | unregister (p : ClientPtr)
  | event (e : Event) (rawMessage : Bytes)
  | writePump (p : ClientPtr)
  | reorder (clients : List ClientPtr) (channels : ChannelMap)

/-- Effect of one action. A `reorder` that is not a rearrangement of the current maps
does nothing. -/
def Action.apply (h : Hub) : Action → Outcome
  | Action.connect p username => Outcome.ok (HandleWebSocket h p username)
  | Action.unregister p => TerminalChat.unregister h p
  | Action.event e rawMessage => handleEvent h e rawMessage
  | Action.writePump p => Outcome.ok (writePumpRecv h p)
  | Action.reorder clients channels =>
    if clients.Perm h.clients ∧ sameIndex channels h.channels = true then
      Outcome.ok { h with clients := clients, channels := channels }
    else Outcome.ok h

/-- Effect of a sequence of actions; a panic ends the program. -/
def runActions : Hub → List Action → Outcome
  | h, [] => Outcome.ok h
  | h, a :: rest =>
    match a.apply h with
    | Outcome.ok h' => runActions h' rest
    | Outcome.panic h' => Outcome.panic h'

/-- An event record with the given type, channel and sender. -/
def mkEvent (type channel sender : String) : Event :=
  { Type_ := type, Channel := channel, From := sender, Timestamp := 0, Content := "",
    Data := [] }

/-! ## Scenarios used to evaluate the hub -/

/-- A slow consumer: "A" (address 1) and "B" (address 2) connect, A joins "general" and
"random", then B sends `n` messages to "general" while A's `writePump` takes none. -/
def slowConsumer (n : Nat) : List Action :=
  [Action.connect 1 "A", Action.connect 2 "B",
    Action.event (mkEvent "join_channel" "general" "A") "join general",
    Action.event (mkEvent "join_channel" "random" "A") "join random"] ++
  List.replicate n (Action.event (mkEvent "send_message" "general" "B") "hello")

/-- The hub once A's queue holds 256 payloads, its capacity. -/
def fullQueueHub : Hub := (runActions NewHub (slowConsumer 256)).hub

/-- The hub after the 257th message has shed A and A's `writePump` has taken the 256
payloads that were pending. -/
def shedHub : Hub :=
  (runActions NewHub (slowConsumer 257 ++ List.replicate 256 (Action.writePump 1))).hub

/-! ## Predicates on hub states -/

/-- The connection `c` is neither registered nor in any subscriber set. -/
def Gone (c : ClientPtr) (h : Hub) : Prop :=
  c ∉ h.clients ∧ ∀ e ∈ h.channels, c ∉ e.2

/-- Every registered connection has an open send queue. -/
def RegisteredOpen (h : Hub) : Prop :=
  ∀ c ∈ h.clients, (h.mem c).Send.closed = false

/-! ## Subscriptions of one connection -/

/-- The set of channels under which the connection `c` is indexed. -/
def indexedChannels (h : Hub) (c : ClientPtr) : Finset String :=
  ((h.channels.filter (fun e => decide (c ∈ e.2))).map Prod.fst).toFinset

/-- The net effect of a sequence of join/leave events on a set of channels, as the
specification words it: a join inserts the channel, a leave erases it. -/
def netSubscriptions (initial : Finset String) (events : List Event) : Finset String :=
  events.foldl
    (fun joined e =>
      if e.Type_ = "join_channel" then insert e.Channel joined else joined.erase e.Channel)
    initial

/-- A hub whose only connection is A (address 1), subscribed to "general". -/
def soloHub : Hub :=
  (runActions NewHub
    [Action.connect 1 "A", Action.event (mkEvent "join_channel" "general" "A") "join"]).hub

/-- A sequence of joins and leaves stamped with A's name. -/
def joinLeaveEvents : List (Event × Bytes) :=
  [(mkEvent "join_channel" "random" "A", "j1"), (mkEvent "leave_channel" "general" "A", "l1"),
    (mkEvent "leave_channel" "dev" "A", "l2"), (mkEvent "join_channel" "random" "A", "j2")]

/-! ## The inbound loop of a connection (`readPump`) -/

/-- The two assignments of `readPump` that stamp a decoded event with the sender's
display name and the receipt time. -/
def stampSender (event : Event) (client : Client) (now : Int) : Event :=
  { event with From := client.Username, Timestamp := now }

/-- One pass through the loop of `readPump` for a frame read without a transport
error. `unmarshal` is `json.Unmarshal` into a `models.Event` and `marshal` is
`json.Marshal` of one (`none` is an error); `now` is `time.Now().Unix()`. The result
is the payload sent to `h.Broadcast`, or `none` when the frame is skipped. -/
def readPumpFrame (unmarshal : Bytes → Option Event) (marshal : Event → Option Bytes)
    (client : Client) (now : Int) (message : Bytes) : Option Bytes :=
  match unmarshal message with
  | none => none
  | some event =>
    match marshal (stampSender event client now) with
    | none => none
    | some modifiedMessage => some modifiedMessage

/-! ## Connections issuing joins and leaves -/

/-- What connections do, seen from outside the hub: a handshake with a display-name
parameter, a disconnection, a frame that the connection's `readPump` decoded to `e`
at time `now` and forwarded as the payload `raw`; and the hub's maps presenting
their keys in another order. -/
inductive ConnAction where
  | connect (c : ClientPtr) (username : String)
  | disconnect (c : ClientPtr)
  | frame (c : ClientPtr) (e : Event) (now : Int) (raw : Bytes)
  | reorder (clients : List ClientPtr) (channels : ChannelMap)

/-- The hub action a connection action amounts to; a frame reaches the hub stamped by
`readPump` with the display name of the connection that issued it. -/
def ConnAction.toAction (h : Hub) : ConnAction → Action
  | ConnAction.connect c username => Action.connect c username
  | ConnAction.disconnect c => Action.unregister c
  | ConnAction.frame c e now raw => Action.event (stampSender e (h.mem c) now) raw
  | ConnAction.reorder clients channels => Action.reorder clients channels

/-- Effect of a sequence of connection actions on the hub. -/
def runConn : Hub → List ConnAction → Outcome
  | h, [] => Outcome.ok h
  | h, a :: rest =>
    match (a.toAction h).apply h with
    | Outcome.ok h' => runConn h' rest
    | Outcome.panic h' => Outcome.panic h'

/-- The display name of a handshake: an absent name is "Anonymous". -/
def displayName (username : String) : String :=
  if username = "" then "Anonymous" else username

/-- The specification's view of the connections: who is connected under which
display name, and which pairs (connection, channel) are subscribed, namely those for
which the connection has issued a join that is not followed by a leave issued by
that connection or by its disconnection. -/
structure Session where
  conns : List (ClientPtr × String)
  joined : List (ClientPtr × String)
deriving DecidableEq, Repr

/-- The session before any connection. -/
def Session.empty : Session := { conns := [], joined := [] }

/-- Effect of a connection action on the session, following the specification's words:
join adds the pair, leave removes it, disconnection removes every pair of the
connection. -/
def Session.step (s : Session) : ConnAction → Session
  | ConnAction.connect c username => { s with conns := (c, displayName username) :: s.conns }
  | ConnAction.disconnect c =>
    { conns := s.conns.filter (fun p => decide (p.1 ≠ c))
      joined := s.joined.filter (fun p => decide (p.1 ≠ c)) }
  | ConnAction.frame c e _ _ =>
    if e.Type_ = "join_channel" then { s with joined := (c, e.Channel) :: s.joined }
    else if e.Type_ = "leave_channel" then
      { s with joined := s.joined.filter (fun p => decide (p ≠ (c, e.Channel))) }
    else s
  | ConnAction.reorder _ _ => s

/-- The session after a sequence of connection actions. -/
def Session.run : Session → List ConnAction → Session
  | s, [] => s
  | s, a :: rest => Session.run (s.step a) rest

/-- A connection action that can occur in the session `s`: a handshake creates a
connection that is not connected yet; only connected connections disconnect or send
frames, and the frames are joins and leaves. With `distinct` set, a handshake must
moreover carry a display name that no connected connection carries. -/
def ConnAction.valid (distinct : Bool) (s : Session) : ConnAction → Prop
  | ConnAction.connect c username =>
    c ∉ s.conns.map Prod.fst ∧
      (distinct = true → displayName username ∉ s.conns.map Prod.snd)
  | ConnAction.disconnect c => c ∈ s.conns.map Prod.fst
  | ConnAction.frame c e _ _ =>
    c ∈ s.conns.map Prod.fst ∧ (e.Type_ = "join_channel" ∨ e.Type_ = "leave_channel")
  | ConnAction.reorder _ _ => True

/-- Every action of the sequence can occur in the session reached before it. -/
def validTrace (distinct : Bool) : Session → List ConnAction → Prop
  | _, [] => True
  | s, a :: rest => a.valid distinct s ∧ validTrace distinct (s.step a) rest

/-- Two connections with the same display name "A"; the first joins "general", the
second, which never joined, leaves it. -/
def sameNameTrace : List ConnAction :=
  [ConnAction.connect 1 "A", ConnAction.connect 2 "A",
    ConnAction.frame 1 (mkEvent "join_channel" "general" "") 100 "join",
    ConnAction.frame 2 (mkEvent "leave_channel" "general" "") 101 "leave"]

/-- The same connections and frames, the registry being visited in the other order. -/
def sameNameTraceReordered : List ConnAction :=
  [ConnAction.connect 1 "A", ConnAction.connect 2 "A", ConnAction.reorder [2, 1] [],
    ConnAction.frame 1 (mkEvent "join_channel" "general" "") 100 "join",
    ConnAction.frame 2 (mkEvent "leave_channel" "general" "") 101 "leave"]

/-- Connections "A" and "B" join and leave channels; "A" disconnects. -/
def distinctNameTrace : List ConnAction :=
  [ConnAction.connect 1 "A", ConnAction.connect 2 "B",
    ConnAction.frame 1 (mkEvent "join_channel" "general" "") 100 "join",
    ConnAction.frame 2 (mkEvent "join_channel" "general" "x") 101 "join",
    ConnAction.frame 2 (mkEvent "leave_channel" "general" "A") 102 "leave",
    ConnAction.frame 2 (mkEvent "join_channel" "random" "") 103 "join",
    ConnAction.disconnect 1]

/-- The relation kept between the hub and the session along a trace of connections
with distinct display names. -/
structure Refines (h : Hub) (s : Session) : Prop where
  registered : ∀ c, c ∈ h.clients ↔ c ∈ s.conns.map Prod.fst
  names : ∀ p ∈ s.conns, (h.mem p.1).Username = p.2
  distinct : ∀ p ∈ s.conns, ∀ q ∈ s.conns, p.2 = q.2 → p.1 = q.1
  subscribed : ∀ c channelID, c ∈ h.subscribers channelID ↔ (c, channelID) ∈ s.joined
  connected : ∀ p ∈ s.joined, p.1 ∈ s.conns.map Prod.fst
  isOpen : RegisteredOpen h
  keys : (h.channels.map Prod.fst).Nodup

/-! ## The client's view state (`client/state/store.go`) -/

/-- The record `state.Message`. `Timestamp` is in Unix seconds; `none` is the zero
`time.Time`. -/
structure Message where
  ID : String
  ChannelID : String
  AuthorID : String
  Username : String
  Content : String
  Timestamp : Option Int
deriving DecidableEq, Repr

/-- The record `state.Channel`. -/
structure Channel where
  ID : String
  Name : String
deriving DecidableEq, Repr

/-- The record `state.ChatState`. A map is the function from keys to the value stored,
`none` for a key that is absent (indexing such a key gives the nil slice). -/
structure ChatState where
  ActiveChannel : String
  Channels : List Channel
  Messages : String → Option (List Message)
  TypingUsers : String → Option (List String)
  Username : String
  Connected : Bool
  InputBuffer : String

/-- The function `NewChatState`. -/
def NewChatState (username : String) : ChatState :=
  { ActiveChannel := "general"
    Channels :=
      [{ ID := "general", Name := "general" }, { ID := "random", Name := "random" },
        { ID := "dev", Name := "dev" }]
    Messages := fun _ => none
    TypingUsers := fun _ => none
    Username := username
    Connected := false
    InputBuffer := "" }

/-- The function `ChatState.GetMessages`. -/
def ChatState.GetMessages (s : ChatState) (channelID : String) : List Message :=
  (s.Messages channelID).getD []

/-- The function `ChatState.AddMessage`. -/
def ChatState.AddMessage (s : ChatState) (channelID : String) (msg : Message) : ChatState :=
  let s1 : ChatState :=
    if (s.Messages channelID).isNone then
      { s with Messages := Function.update s.Messages channelID (some []) }
    else s
  let s2 : ChatState :=
    { s1 with
      Messages :=
        Function.update s1.Messages channelID (some ((s1.Messages channelID).getD [] ++ [msg])) }
  if ((s2.Messages channelID).getD []).length > 1000 then
    { s2 with
      Messages :=
        Function.update s2.Messages channelID (some (((s2.Messages channelID).getD []).drop 1)) }
  else s2

/-- A sequence of `AddMessage` calls applied to a state. -/
def addMessages (s : ChatState) (calls : List (String × Message)) : ChatState :=
  calls.foldl (fun st call => st.AddMessage call.1 call.2) s

/-! ## The client's handling of events (`client/main.go`) -/

/-- A decoded JSON object, as held in a `map[string]interface{}`. -/
abbrev JsonObject := List (String × JsonValue)

/-- Indexing `event[key]`. -/
def jsonGet : JsonObject → String → Option JsonValue
  | [], _ => none
  | (k, v) :: rest, key => if k = key then some v else jsonGet rest key

/-- The type assertion `v.(string)`; `none` is a failed assertion. -/
def asString : Option JsonValue → Option String
  | some (JsonValue.string s) => some s
  | _ => none

/-- The type assertion `v.(float64)`; `none` is a failed assertion. -/
def asFloat64 : Option JsonValue → Option ℚ
  | some (JsonValue.number q) => some q
  | _ => none

/-- The parts of `Model` that `Update` and `handleEvent` read or write: the chat state,
the value of the input field, and the frames handed to the connection for
sending. -/
structure Model where
  chatState : ChatState
  input : String
  outgoing : List JsonObject

/-- The integer part of a number, rounding toward zero. -/
def truncate (x : ℚ) : Int := Int.tdiv x.num x.den

/-- The conversion `int64(x)` of a `float64` (here the rational it denotes): the integer
part when it fits in 64 bits. Otherwise Go leaves the result to the platform; it is
`outOfRange x` (on amd64 the result is -2^63, see `amd64OutOfRange`). -/
def int64OfFloat64 (outOfRange : ℚ → Int) (x : ℚ) : Int :=
  if -(2 : Int) ^ 63 ≤ truncate x ∧ truncate x < (2 : Int) ^ 63 then truncate x
  else outOfRange x

/-- What amd64 gives for a `float64` outside the range of `int64`. -/
def amd64OutOfRange (_ : ℚ) : Int := -(2 : Int) ^ 63

/-- The message that `handleEvent` builds from a `send_message` event. A failed type
assertion leaves the zero value. `time.Unix(int64(timestamp), 0)` is kept as its
number of seconds. -/
def incomingMessage (outOfRange : ℚ → Int) (event : JsonObject) : Message :=
  { ID := ""
    ChannelID := (asString (jsonGet event "channel")).getD ""
    AuthorID := ""
    Username := (asString (jsonGet event "from")).getD ""
    Content := (asString (jsonGet event "content")).getD ""
    Timestamp :=
      if (asFloat64 (jsonGet event "timestamp")).getD 0 > 0 then
        some (int64OfFloat64 outOfRange ((asFloat64 (jsonGet event "timestamp")).getD 0))
      else none }

/-- The function `Model.handleEvent`; `outOfRange` is the platform's result for
`int64` of a number that does not fit. -/
def Model.handleEvent (outOfRange : ℚ → Int) (m : Model) (event : JsonObject) : Model :=
  match asString (jsonGet event "type") with
  | none => m
  | some eventType =>
    if eventType = "send_message" then
      if (asString (jsonGet event "from")).getD "" = m.chatState.Username then m
      else
        { m with
          chatState :=
            m.chatState.AddMessage ((asString (jsonGet event "channel")).getD "")
              (incomingMessage outOfRange event) }
    else m

/-- The `[]byte` case of `Model.Update`: a payload that fails to decode is skipped, any
other is handled as an event. `unmarshalObject` is `json.Unmarshal` into a
`map[string]interface{}`. -/
def Model.updateBytes (unmarshalObject : Bytes → Option JsonObject) (outOfRange : ℚ → Int)
    (m : Model) (msg : Bytes) : Model :=
  match unmarshalObject msg with
  | none => m
  | some event => Model.handleEvent outOfRange m event

/-- The client receives, one after the other, the payloads that the server wrote out
of its send queue. -/
def Model.receiveAll (unmarshalObject : Bytes → Option JsonObject) (outOfRange : ℚ → Int)
    (m : Model) (payloads : List Bytes) : Model :=
  payloads.foldl (Model.updateBytes unmarshalObject outOfRange) m

/-- The frame built by `WSClient.SendMessage`. -/
def sendMessageFrame (channel content : String) : JsonObject :=
  [("type", JsonValue.string "send_message"), ("channel", JsonValue.string channel),
    ("content", JsonValue.string content)]

/-- The `enter` case of `Model.Update`; `now` is `time.Now()`. -/
def Model.updateEnter (m : Model) (now : Int) : Model :=
  if m.input ≠ "" ∧ m.chatState.Connected = true then
    { chatState :=
        m.chatState.AddMessage m.chatState.ActiveChannel
          { ID := ""
            ChannelID := m.chatState.ActiveChannel
            AuthorID := ""
            Username := m.chatState.Username
            Content := m.input
            Timestamp := some now }
      input := ""
      outgoing := m.outgoing ++ [sendMessageFrame m.chatState.ActiveChannel m.input] }
  else m

/-- The event that a client receives when "A" has sent "hi" to "general": the frame of
`SendMessage` stamped by the server with the sender and the receipt time. -/
def hiFromA : JsonObject :=
  [("type", JsonValue.string "send_message"), ("channel", JsonValue.string "general"),
    ("from", JsonValue.string "A"), ("timestamp", JsonValue.number 1700000000),
    ("content", JsonValue.string "hi")]

/-- The client of the given user, connected, with `text` typed in its input field. -/
def clientOf (username text : String) : Model :=
  { chatState := { NewChatState username with Connected := true }
    input := text
    outgoing := [] }

/-- The hub after A (address 1) and B (address 2) have connected and joined
"general". -/
def bothJoined : List Action :=
  [Action.connect 1 "A", Action.connect 2 "B",
    Action.event (mkEvent "join_channel" "general" "A") "join",
    Action.event (mkEvent "join_channel" "general" "B") "join"]

/-- A message of "B". -/
def sampleMessage : Message :=
  { ID := "", ChannelID := "general", AuthorID := "", Username := "B", Content := "hello",
    Timestamp := some 1700000000 }

/-- A state whose "general" history holds exactly 1000 entries. -/
def fullHistory : ChatState :=
  { NewChatState "A" with
    Messages := fun c => if c = "general" then some (List.replicate 1000 sampleMessage) else none }

/-- The action undoes a subscription of `c` to `channelID`: it is `c`'s disconnection
or a `leave_channel` for `channelID` issued by `c`. -/
def ConnAction.cancels (c : ClientPtr) (channelID : String) : ConnAction → Prop
  | ConnAction.disconnect c' => c' = c
  | ConnAction.frame c' e _ _ =>
    c' = c ∧ e.Type_ = "leave_channel" ∧ e.Channel = channelID
  | _ => False

/-- The action is a `join_channel` for `channelID` issued by `c`. -/
def ConnAction.joins (c : ClientPtr) (channelID : String) : ConnAction → Prop
  | ConnAction.frame c' e _ _ => c' = c ∧ e.Type_ = "join_channel" ∧ e.Channel = channelID
  | _ => False

/-! ## The whole inbound loop -/

/-- What `conn.ReadMessage()` hands to `readPump`: a frame, together with the time at
which it is handled, or a transport error. -/
inductive ReadResult where
  | message (message : Bytes) (now : Int)
  | err

/-- The function `readPump` over the successive results of `conn.ReadMessage()`: the
requests it sends to the hub, in order. A frame that is skipped sends nothing and the
loop goes on; a transport error ends the loop, and the deferred function sends the
unregister request. As long as the results hold no error the loop is still
running. -/
def readPump (unmarshal : Bytes → Option Event) (marshal : Event → Option Bytes)
    (client : ClientPtr) (object : Client) : List ReadResult → List Request
  | [] => []
  | ReadResult.err :: _ => [Request.unregister client]
  | ReadResult.message message now :: rest =>
    match readPumpFrame unmarshal marshal object now message with
    | none => readPump unmarshal marshal client object rest
    | some modifiedMessage =>
      Request.broadcast modifiedMessage :: readPump unmarshal marshal client object rest

/-! ## What was added to one channel -/

/-- The messages that a sequence of `AddMessage` calls passes for one channel, in the
order of the calls. -/
def addedTo (calls : List (String × Message)) (channelID : String) : List Message :=
  (calls.filter (fun call => decide (call.1 = channelID))).map Prod.snd

/-! ## The sidebar (`client/ui/sidebar.go`) -/

/-- The function `ChatState.SetActiveChannel`. -/
def ChatState.SetActiveChannel (s : ChatState) (channelID : String) : ChatState :=
  { s with ActiveChannel := channelID }

/-- The function `ChatState.AddChannel`. -/
def ChatState.AddChannel (s : ChatState) (channel : Channel) : ChatState :=
  { s with Channels := s.Channels ++ [channel] }

/-- The record `ui.Sidebar` without its dimensions: the chat state it points to and the
selected index, a Go `int`. (An index stays below the length of a slice, which Go
bounds by the largest `int`, so the arithmetic on it does not overflow.) -/
structure Sidebar where
  chatState : ChatState
  selected : Int

/-- The function `NewSidebar`. -/
def NewSidebar (chatState : ChatState) : Sidebar :=
  { chatState := chatState, selected := 0 }

/-- Indexing `xs[i]` with a Go `int`; `none` is the panic for an index out of range. -/
def sliceGet (xs : List Channel) (i : Int) : Option Channel :=
  if 0 ≤ i ∧ i < xs.length then xs[i.toNat]? else none

/-- The loop of `Sidebar.Update` over the channels from position `i` on: the position of
the first channel whose `ID` is the active channel. -/
def firstIndexOf (activeChannel : String) : List Channel → Nat → Option Nat
  | [], _ => none
  | channel :: rest, i =>
    if channel.ID = activeChannel then some i else firstIndexOf activeChannel rest (i + 1)

/-- The function `Sidebar.Update`. -/
def Sidebar.Update (s : Sidebar) : Sidebar :=
  match firstIndexOf s.chatState.ActiveChannel s.chatState.Channels 0 with
  | some i => { s with selected := i }
  | none => s

/-- The function `Sidebar.NextChannel`; `none` is a panic (division by zero for an empty
channel list, or an index out of range). Go's `%` truncates. -/
def Sidebar.NextChannel (s : Sidebar) : Option Sidebar :=
  if s.chatState.Channels.length = 0 then none
  else
    match sliceGet s.chatState.Channels
        (Int.tmod (s.selected + 1) s.chatState.Channels.length) with
    | none => none
    | some channel =>
      some
        { chatState := s.chatState.SetActiveChannel channel.ID
          selected := Int.tmod (s.selected + 1) s.chatState.Channels.length }

/-- The function `Sidebar.PrevChannel`; `none` is the panic for an index out of
range. -/
def Sidebar.PrevChannel (s : Sidebar) : Option Sidebar :=
  match sliceGet s.chatState.Channels
      (if s.selected - 1 < 0 then (s.chatState.Channels.length : Int) - 1
        else s.selected - 1) with
  | none => none
  | some channel =>
    some
      { chatState := s.chatState.SetActiveChannel channel.ID
        selected :=
          if s.selected - 1 < 0 then (s.chatState.Channels.length : Int) - 1
          else s.selected - 1 }

/-- The calls that change the sidebar or the chat state it points to. -/
inductive SidebarOp where
  | next
  | prev
  | update
  | addChannel (channel : Channel)
  | setActiveChannel (channelID : String)

/-- Effect of one call; `none` is a panic. -/
def SidebarOp.apply (s : Sidebar) : SidebarOp → Option Sidebar
  | SidebarOp.next => s.NextChannel
  | SidebarOp.prev => s.PrevChannel
  | SidebarOp.update => some s.Update
  | SidebarOp.addChannel channel => some { s with chatState := s.chatState.AddChannel channel }
  | SidebarOp.setActiveChannel channelID =>
    some { s with chatState := s.chatState.SetActiveChannel channelID }

/-- Effect of a sequence of calls; a panic ends the program. -/
def runSidebar : Sidebar → List SidebarOp → Option Sidebar
  | s, [] => some s
  | s, op :: rest =>
    match op.apply s with
    | none => none
    | some s' => runSidebar s' rest

/-- The channel `ID` at a position of the channel list ("" when out of range). -/
def channelIDAt (s : Sidebar) (i : Int) : String :=
  match sliceGet s.chatState.Channels i with
  | some channel => channel.ID
  | none => ""

/-- The sidebar of a new client. -/
def freshSidebar (username : String) : Sidebar := NewSidebar (NewChatState username)

/-- The hub after A and B have connected and joined "general". -/
def bothJoinedHub : Hub := (runActions NewHub bothJoined).hub

/-- The hub after A and B have joined "general" and the hub has handled the event
`stamped` that arrived as `payload`. -/
def afterSend (stamped : Event) (payload : Bytes) : Hub :=
  (runActions NewHub (bothJoined ++ [Action.event stamped payload])).hub

/-- A decoder that knows one payload, the echo of A's "hi". -/
def decodeHi (payload : Bytes) : Option JsonObject :=
  if payload = "hi from A" then some hiFromA else none

/-! ## Hubs used for join and leave on one connection -/

/-- Two connections with the display name "A", none subscribed. -/
def sameNameIdleHub : Hub :=
  (runActions NewHub [Action.connect 1 "A", Action.connect 2 "A"]).hub

/-- Two connections with the display name "A"; connection 1 is subscribed to
"general". -/
def sameNameHub : Hub :=
  (runActions NewHub
    [Action.connect 1 "A", Action.connect 2 "A",
      Action.event (mkEvent "join_channel" "general" "A") "join"]).hub

/-- A is the only registered connection, and "general" has an entry that was left empty:
A and B connect, B joins "general", and A sends 257 messages to "general" while B's
`writePump` takes none, which sheds B. -/
def leftoverEntryHub : Hub :=
  (runActions NewHub
    ([Action.connect 1 "A", Action.connect 2 "B",
        Action.event (mkEvent "join_channel" "general" "B") "join"]
      ++ List.replicate 257 (Action.event (mkEvent "send_message" "general" "A") "hello"))).hub

set_option maxRecDepth 1000000

/-! ## Basic facts about the map operations -/

theorem mapGet_mapSet (m : ChannelMap) (k k' : String) (v : List ClientPtr) :
    mapGet (mapSet m k v) k' = if k = k' then some v else mapGet m k' := by
  induction m with
  | nil =>
    by_cases hk : k = k' <;> simp [mapSet, mapGet, hk]
  | cons e rest ih =>
    obtain ⟨k0, v0⟩ := e
    by_cases h0 : k0 = k
    · subst h0
      by_cases hk : k0 = k' <;> simp [mapSet, mapGet, hk]
    · by_cases hk : k = k'
      · subst hk
        simp [mapSet, mapGet, h0, ih]
      · have hk' : ¬ k' = k := fun h => hk h.symm
        by_cases h1 : k0 = k' <;> simp [mapSet, mapGet, h0, h1, hk, hk', ih]

theorem mapGet_mapDelete (m : ChannelMap) (k k' : String) :
    mapGet (mapDelete m k) k' = if k = k' then none else mapGet m k' := by
  induction m with
  | nil => simp [mapDelete, mapGet]
  | cons e rest ih =>
    obtain ⟨k0, v0⟩ := e
    unfold mapDelete at ih ⊢
    by_cases h0 : k0 = k
    · subst h0
      by_cases hk : k0 = k'
      · simp [List.filter_cons, mapGet, hk] at ih ⊢
        simpa [hk] using ih
      · simp [List.filter_cons, mapGet, hk] at ih ⊢
        simpa [hk] using ih
    · by_cases hk : k = k'
      · subst hk
        simp [List.filter_cons, mapGet, h0] at ih ⊢
        simpa using ih
      · have hk' : ¬ k' = k := fun h => hk h.symm
        by_cases h1 : k0 = k'
        · simp [List.filter_cons, mapGet, h0, h1, hk, hk']
        · simp only [List.filter_cons, mapGet, h0, h1, hk, ne_eq, not_false_eq_true,
            decide_True, if_true, if_false] at ih ⊢
          exact ih

theorem mapSet_eq_self (m : ChannelMap) (k : String) (v : List ClientPtr)
    (hget : mapGet m k = some v) : mapSet m k v = m := by
  induction m with
  | nil => simp [mapGet] at hget
  | cons e rest ih =>
    obtain ⟨k0, v0⟩ := e
    by_cases h0 : k0 = k
    · subst h0
      simp [mapGet] at hget
      simp [mapSet, hget]
    · simp [mapGet, h0] at hget
      simp [mapSet, h0, ih hget]

theorem mapGet_eq_none_iff (m : ChannelMap) (k : String) :
    mapGet m k = none ↔ ∀ e ∈ m, e.1 ≠ k := by
  induction m with
  | nil => simp [mapGet]
  | cons e rest ih =>
    obtain ⟨k0, v0⟩ := e
    by_cases h0 : k0 = k <;> simp [mapGet, h0, ih]

theorem mapGet_mem (m : ChannelMap) (k : String) (v : List ClientPtr)
    (hget : mapGet m k = some v) : (k, v) ∈ m := by
  induction m with
  | nil => simp [mapGet] at hget
  | cons e rest ih =>
    obtain ⟨k0, v0⟩ := e
    by_cases h0 : k0 = k
    · subst h0
      simp [mapGet] at hget
      simp [hget]
    · simp [mapGet, h0] at hget
      exact List.mem_cons_of_mem _ (ih hget)

theorem mem_setDelete (s : List ClientPtr) (c x : ClientPtr) :
    x ∈ setDelete s c ↔ x ∈ s ∧ x ≠ c := by
  simp [setDelete]

theorem mem_setInsert (s : List ClientPtr) (c x : ClientPtr) :
    x ∈ setInsert s c ↔ x ∈ s ∨ x = c := by
  unfold setInsert
  by_cases hc : c ∈ s
  · simp only [hc, if_true]
    constructor
    · exact Or.inl
    · rintro (h | h)
      · exact h
      · exact h ▸ hc
  · simp [hc]

theorem mem_mapSet (m : ChannelMap) (k : String) (v : List ClientPtr) (e : String × List ClientPtr)
    (he : e ∈ mapSet m k v) : e ∈ m ∨ e = (k, v) := by
  induction m with
  | nil =>
    simp [mapSet] at he
    exact Or.inr he
  | cons e0 rest ih =>
    obtain ⟨k0, v0⟩ := e0
    by_cases h0 : k0 = k
    · simp [mapSet, h0] at he
      rcases he with he | he
      · exact Or.inr he
      · exact Or.inl (List.mem_cons_of_mem _ he)
    · simp [mapSet, h0] at he
      rcases he with he | he
      · exact Or.inl (he ▸ List.mem_cons_self _ _)
      · rcases ih he with h1 | h1
        · exact Or.inl (List.mem_cons_of_mem _ h1)
        · exact Or.inr h1

theorem mem_ensureChannel (m : ChannelMap) (k : String) (e : String × List ClientPtr)
    (he : e ∈ ensureChannel m k) : e ∈ m ∨ e = (k, []) := by
  unfold ensureChannel at he
  cases hget : mapGet m k with
  | none =>
    rw [hget] at he
    exact mem_mapSet _ _ _ _ he
  | some v =>
    rw [hget] at he
    exact Or.inl he

theorem mapGet_ensureChannel (m : ChannelMap) (k : String) :
    mapGet (ensureChannel m k) k = some ((mapGet m k).getD []) := by
  unfold ensureChannel
  cases hget : mapGet m k with
  | none => simp [mapGet_mapSet]
  | some v => simp [hget]

theorem mapGet_ensureChannel_ne (m : ChannelMap) (k k' : String) (hne : k ≠ k') :
    mapGet (ensureChannel m k) k' = mapGet m k' := by
  unfold ensureChannel
  cases hget : mapGet m k with
  | none => simp [mapGet_mapSet, hne]
  | some v => rfl

theorem mem_mapDelete (m : ChannelMap) (k : String) (e : String × List ClientPtr)
    (he : e ∈ mapDelete m k) : e ∈ m := by
  unfold mapDelete at he
  exact (List.mem_filter.mp he).1

theorem sameIndex_mem : ∀ (m' m : ChannelMap), sameIndex m' m = true →
    ∀ e ∈ m', ∃ e' ∈ m, e.1 = e'.1 ∧ e.2.Perm e'.2
  | [], [], _, e, he => by simp at he
  | [], _ :: _, hs, _, _ => by simp [sameIndex] at hs
  | _ :: _, [], hs, _, _ => by simp [sameIndex] at hs
  | (k, v) :: rest, (k', v') :: rest', hs, e, he => by
    simp [sameIndex] at hs
    obtain ⟨⟨hk, hv⟩, hrest⟩ := hs
    rcases List.mem_cons.mp he with h1 | h1
    · exact ⟨(k', v'), List.mem_cons_self _ _, by simp [h1, hk], by simpa [h1] using hv⟩
    · obtain ⟨e', he', h2⟩ := sameIndex_mem rest rest' hrest e h1
      exact ⟨e', List.mem_cons_of_mem _ he', h2⟩

theorem sameIndex_mapGet : ∀ (m' m : ChannelMap), sameIndex m' m = true →
    ∀ k, (mapGet m' k = none ∧ mapGet m k = none) ∨
      ∃ v' v, mapGet m' k = some v' ∧ mapGet m k = some v ∧ v'.Perm v
  | [], [], _, k => by simp [mapGet]
  | [], _ :: _, hs, _ => by simp [sameIndex] at hs
  | _ :: _, [], hs, _ => by simp [sameIndex] at hs
  | (k1, v) :: rest, (k', v') :: rest', hs, k => by
    simp [sameIndex] at hs
    obtain ⟨⟨hk, hv⟩, hrest⟩ := hs
    subst hk
    by_cases h1 : k1 = k
    · right
      exact ⟨v, v', by simp [mapGet, h1], by simp [mapGet, h1], hv⟩
    · simpa [mapGet, h1] using sameIndex_mapGet rest rest' hrest k

/-! ## A connection that is gone stays gone -/

theorem subscribers_mem_entry (h : Hub) (ch : String) (x : ClientPtr)
    (hx : x ∈ h.subscribers ch) : ∃ e ∈ h.channels, e.1 = ch ∧ x ∈ e.2 := by
  unfold Hub.subscribers at hx
  cases hget : mapGet h.channels ch with
  | none => simp [hget] at hx
  | some v =>
    simp [hget] at hx
    exact ⟨(ch, v), mapGet_mem _ _ _ hget, rfl, hx⟩

theorem Gone.not_subscriber {c : ClientPtr} {h : Hub} (hg : Gone c h) (ch : String) :
    c ∉ h.subscribers ch := by
  intro hx
  obtain ⟨e, he, _, hc⟩ := subscribers_mem_entry h ch c hx
  exact hg.2 e he hc

theorem fanOut_gone (c : ClientPtr) (ch : String) (m : Bytes) :
    ∀ (l : List ClientPtr) (h : Hub), c ∉ l → Gone c h →
      Gone c (fanOut ch m l h).hub ∧ (fanOut ch m l h).hub.mem c = h.mem c
  | [], h, _, hg => by simpa [fanOut, Outcome.hub] using hg
  | client :: rest, h, hl, hg => by
    have hne : c ≠ client := fun e => hl (e ▸ List.mem_cons_self _ _)
    have hrest : c ∉ rest := fun e => hl (List.mem_cons_of_mem _ e)
    unfold fanOut
    cases hs : (h.mem client).Send.trySend m with
    | sent q =>
      simp only
      have := fanOut_gone c ch m rest (h.setSend client q) hrest ⟨hg.1, hg.2⟩
      refine ⟨this.1, ?_⟩
      rw [this.2]
      simp [Hub.setSend, Function.update, hne]
    | full =>
      simp only
      cases hc : (h.mem client).Send.close with
      | none => simpa [Outcome.hub] using hg
      | some q =>
        simp only
        have hg' : Gone c
            { mem := (h.setSend client q).mem
              clients := setDelete h.clients client
              channels :=
                mapSet h.channels ch (setDelete (h.subscribers ch) client) } := by
          refine ⟨fun hx => hg.1 ((mem_setDelete _ _ _).mp hx).1, ?_⟩
          intro e he
          rcases mem_mapSet _ _ _ _ he with h1 | h1
          · exact hg.2 e h1
          · rw [h1]
            intro hx
            exact hg.not_subscriber ch ((mem_setDelete _ _ _).mp hx).1
        have := fanOut_gone c ch m rest _ hrest hg'
        refine ⟨this.1, ?_⟩
        rw [this.2]
        simp [Hub.setSend, Function.update, hne]
    | panic => simpa [Outcome.hub] using hg

theorem mem_getD_mapGet (m : ChannelMap) (k : String) (x : ClientPtr)
    (hx : x ∈ (mapGet m k).getD []) : ∃ v, mapGet m k = some v ∧ x ∈ v := by
  cases hget : mapGet m k with
  | none => simp [hget] at hx
  | some v => exact ⟨v, rfl, by simpa [hget] using hx⟩

theorem broadcastToChannel_gone (c : ClientPtr) (h : Hub) (ch : String) (m : Bytes)
    (hg : Gone c h) :
    Gone c (broadcastToChannel h ch m).hub ∧ (broadcastToChannel h ch m).hub.mem c = h.mem c := by
  unfold broadcastToChannel
  cases hget : mapGet h.channels ch with
  | none => simpa [Outcome.hub] using hg
  | some l =>
    simp only
    have hl : c ∉ l := fun hx => hg.2 _ (mapGet_mem _ _ _ hget) hx
    exact fanOut_gone c ch m l h hl hg

theorem joinChannel_gone (c : ClientPtr) (h : Hub) (ch username : String) (hg : Gone c h) :
    Gone c (joinChannel h ch username) ∧ (joinChannel h ch username).mem = h.mem := by
  have hchans : ∀ e ∈ ensureChannel h.channels ch, c ∉ e.2 := by
    intro e he
    rcases mem_ensureChannel _ _ _ he with h1 | h1
    · exact hg.2 e h1
    · simp [h1]
  unfold joinChannel
  simp only
  cases hf : h.clients.find? (fun client => decide ((h.mem client).Username = username)) with
  | none => exact ⟨⟨hg.1, hchans⟩, rfl⟩
  | some client =>
    refine ⟨⟨hg.1, ?_⟩, rfl⟩
    intro e he
    rcases mem_mapSet _ _ _ _ he with h1 | h1
    · exact hchans e h1
    · rw [h1]
      intro hx
      rcases (mem_setInsert _ _ _).mp hx with h2 | h2
      · obtain ⟨v, hv, hxv⟩ := mem_getD_mapGet _ _ _ h2
        exact hchans _ (mapGet_mem _ _ _ hv) hxv
      · exact hg.1 (h2 ▸ List.mem_of_find?_eq_some hf)

theorem leaveChannel_gone (c : ClientPtr) (h : Hub) (ch username : String) (hg : Gone c h) :
    Gone c (leaveChannel h ch username) ∧ (leaveChannel h ch username).mem = h.mem := by
  unfold leaveChannel
  cases hget : mapGet h.channels ch with
  | none => exact ⟨hg, rfl⟩
  | some l =>
    simp only
    have hl : c ∉ l := fun hx => hg.2 _ (mapGet_mem _ _ _ hget) hx
    split
    · exact ⟨⟨hg.1, fun e he => hg.2 e (mem_mapDelete _ _ _ he)⟩, rfl⟩
    · refine ⟨⟨hg.1, ?_⟩, rfl⟩
      intro e he
      rcases mem_mapSet _ _ _ _ he with h1 | h1
      · exact hg.2 e h1
      · rw [h1]
        cases hf : l.find? (fun client => decide ((h.mem client).Username = username)) with
        | none => simpa using hl
        | some client =>
          simp only
          exact fun hx => hl ((mem_setDelete _ _ _).mp hx).1

theorem handleEvent_gone (c : ClientPtr) (h : Hub) (e : Event) (raw : Bytes) (hg : Gone c h) :
    Gone c (handleEvent h e raw).hub ∧ (handleEvent h e raw).hub.mem c = h.mem c := by
  unfold handleEvent
  split
  · exact ⟨(joinChannel_gone c h _ _ hg).1, by rw [Outcome.hub, (joinChannel_gone c h _ _ hg).2]⟩
  · split
    · exact ⟨(leaveChannel_gone c h _ _ hg).1,
        by rw [Outcome.hub, (leaveChannel_gone c h _ _ hg).2]⟩
    · split
      · exact broadcastToChannel_gone c h _ _ hg
      · split
        · exact broadcastToChannel_gone c h _ _ hg
        · split
          · exact broadcastToChannel_gone c h _ _ hg
          · exact ⟨hg, rfl⟩

theorem unregister_gone (c p : ClientPtr) (h : Hub) (hg : Gone c h) :
    Gone c (unregister h p).hub ∧ (unregister h p).hub.mem c = h.mem c := by
  unfold unregister
  split
  · rename_i hp
    have hne : c ≠ p := fun e => hg.1 (e ▸ hp)
    cases hc : (h.mem p).Send.close with
    | none =>
      exact ⟨⟨fun hx => hg.1 ((mem_setDelete _ _ _).mp hx).1, hg.2⟩, rfl⟩
    | some q =>
      refine ⟨⟨fun hx => hg.1 ((mem_setDelete _ _ _).mp hx).1, ?_⟩, ?_⟩
      · intro e he
        simp only [Outcome.hub, List.mem_filter, List.mem_map] at he
        obtain ⟨⟨e0, he0, rfl⟩, _⟩ := he
        exact fun hx => hg.2 e0 he0 ((mem_setDelete _ _ _).mp hx).1
      · simp [Outcome.hub, Hub.setSend, Function.update, hne]
  · exact ⟨hg, rfl⟩

theorem apply_gone (c : ClientPtr) (h : Hub) (a : Action)
    (ha : ∀ u, a ≠ Action.connect c u) (hg : Gone c h) :
    Gone c (a.apply h).hub ∧
      ((a.apply h).hub.mem c).Send.buf <:+ (h.mem c).Send.buf ∧
      ((a.apply h).hub.mem c).Send.closed = (h.mem c).Send.closed := by
  cases a with
  | connect p username =>
    have hne : c ≠ p := fun e => ha username (by rw [e])
    refine ⟨⟨?_, hg.2⟩, ?_, ?_⟩
    · intro hx
      rcases (mem_setInsert _ _ _).mp hx with h1 | h1
      · exact hg.1 h1
      · exact hne h1
    · simp [Action.apply, Outcome.hub, HandleWebSocket, register, Function.update, hne]
    · simp [Action.apply, Outcome.hub, HandleWebSocket, register, Function.update, hne]
  | unregister p =>
    have := unregister_gone c p h hg
    exact ⟨this.1, by simp [Action.apply, this.2], by simp [Action.apply, this.2]⟩
  | event e raw =>
    have := handleEvent_gone c h e raw hg
    exact ⟨this.1, by simp [Action.apply, this.2], by simp [Action.apply, this.2]⟩
  | writePump p =>
    refine ⟨hg, ?_, ?_⟩
    · by_cases hp : c = p
      · subst hp
        simp [Action.apply, Outcome.hub, writePumpRecv, Hub.setSend, Chan.recv]
        exact List.tail_suffix _
      · simp [Action.apply, Outcome.hub, writePumpRecv, Hub.setSend, Function.update, hp]
    · by_cases hp : c = p
      · subst hp
        simp [Action.apply, Outcome.hub, writePumpRecv, Hub.setSend, Chan.recv]
      · simp [Action.apply, Outcome.hub, writePumpRecv, Hub.setSend, Function.update, hp]
  | reorder clients channels =>
    simp only [Action.apply]
    split
    · rename_i hr
      refine ⟨⟨fun hx => hg.1 (hr.1.mem_iff.mp hx), ?_⟩, List.suffix_refl _, rfl⟩
      intro e he hx
      obtain ⟨e', he', _, hperm⟩ := sameIndex_mem _ _ hr.2 e he
      exact hg.2 e' he' (hperm.mem_iff.mp hx)
    · exact ⟨hg, List.suffix_refl _, rfl⟩

theorem runActions_gone (c : ClientPtr) :
    ∀ (acts : List Action) (h : Hub), (∀ u, Action.connect c u ∉ acts) → Gone c h →
      Gone c (runActions h acts).hub ∧
        ((runActions h acts).hub.mem c).Send.buf <:+ (h.mem c).Send.buf ∧
        ((runActions h acts).hub.mem c).Send.closed = (h.mem c).Send.closed
  | [], h, _, hg => ⟨hg, List.suffix_refl _, rfl⟩
  | a :: rest, h, ha, hg => by
    have ha0 : ∀ u, a ≠ Action.connect c u := fun u e => ha u (e ▸ List.mem_cons_self _ _)
    have hrest : ∀ u, Action.connect c u ∉ rest := fun u e => ha u (List.mem_cons_of_mem _ e)
    have h1 := apply_gone c h a ha0 hg
    unfold runActions
    cases hout : a.apply h with
    | ok h' =>
      rw [hout] at h1
      simp only
      have h2 := runActions_gone c rest h' hrest h1.1
      exact ⟨h2.1, h2.2.1.trans h1.2.1, h2.2.2.trans h1.2.2⟩
    | panic h' =>
      rw [hout] at h1
      exact h1

/-! ## Registered connections have open queues -/

theorem joinChannel_clients (h : Hub) (ch u : String) :
    (joinChannel h ch u).clients = h.clients := by
  unfold joinChannel
  simp only
  split <;> rfl

theorem joinChannel_mem (h : Hub) (ch u : String) : (joinChannel h ch u).mem = h.mem := by
  unfold joinChannel
  simp only
  split <;> rfl

theorem leaveChannel_clients (h : Hub) (ch u : String) :
    (leaveChannel h ch u).clients = h.clients := by
  unfold leaveChannel
  split
  · rfl
  · simp only
    split <;> rfl

theorem leaveChannel_mem (h : Hub) (ch u : String) : (leaveChannel h ch u).mem = h.mem := by
  unfold leaveChannel
  split
  · rfl
  · simp only
    split <;> rfl

theorem fanOut_registeredOpen (ch : String) (m : Bytes) :
    ∀ (l : List ClientPtr) (h : Hub), RegisteredOpen h → RegisteredOpen (fanOut ch m l h).hub
  | [], h, hr => by simpa [fanOut, Outcome.hub] using hr
  | client :: rest, h, hr => by
    unfold fanOut
    cases hs : (h.mem client).Send.trySend m with
    | sent q =>
      simp only
      apply fanOut_registeredOpen ch m rest
      intro c hc
      by_cases hcc : c = client
      · subst hcc
        unfold Chan.trySend at hs
        split at hs
        · cases hs
        · rename_i hcl
          split at hs
          · cases hs
            simpa [Hub.setSend] using hcl
          · cases hs
      · simpa [Hub.setSend, Function.update, hcc] using hr c hc
    | full =>
      simp only
      cases hc : (h.mem client).Send.close with
      | none => simpa [Outcome.hub] using hr
      | some q =>
        simp only
        apply fanOut_registeredOpen ch m rest
        intro c hc
        have hc' := (mem_setDelete _ _ _).mp hc
        simpa [Hub.setSend, Function.update, hc'.2] using hr c hc'.1
    | panic => simpa [Outcome.hub] using hr

theorem handleEvent_registeredOpen (h : Hub) (e : Event) (raw : Bytes)
    (hr : RegisteredOpen h) : RegisteredOpen (handleEvent h e raw).hub := by
  have hb : ∀ ch, RegisteredOpen (broadcastToChannel h ch raw).hub := by
    intro ch
    unfold broadcastToChannel
    cases hget : mapGet h.channels ch with
    | none => simpa [Outcome.hub] using hr
    | some l => exact fanOut_registeredOpen ch raw l h hr
  have hj : RegisteredOpen (joinChannel h e.Channel e.From) := by
    intro c hc
    rw [joinChannel_mem]
    exact hr c (joinChannel_clients h _ _ ▸ hc)
  have hl : RegisteredOpen (leaveChannel h e.Channel e.From) := by
    intro c hc
    rw [leaveChannel_mem]
    exact hr c (leaveChannel_clients h _ _ ▸ hc)
  unfold handleEvent
  split
  · exact hj
  · split
    · exact hl
    · split
      · exact hb _
      · split
        · exact hb _
        · split
          · exact hb _
          · exact hr

theorem unregister_registeredOpen (h : Hub) (p : ClientPtr) (hr : RegisteredOpen h) :
    RegisteredOpen (unregister h p).hub := by
  unfold unregister
  split
  · cases hc : (h.mem p).Send.close with
    | none =>
      intro c hc
      exact hr c ((mem_setDelete _ _ _).mp hc).1
    | some q =>
      intro c hc
      have hc' := (mem_setDelete _ _ _).mp hc
      simpa [Outcome.hub, Hub.setSend, Function.update, hc'.2] using hr c hc'.1
  · exact hr

theorem apply_registeredOpen (h : Hub) (a : Action) (hr : RegisteredOpen h) :
    RegisteredOpen (a.apply h).hub := by
  cases a with
  | connect p username =>
    intro c hc
    by_cases hcp : c = p
    · subst hcp
      simp [Action.apply, Outcome.hub, HandleWebSocket, register, newClient, makeChan]
    · have hc' : c ∈ h.clients := by
        rcases (mem_setInsert _ _ _).mp hc with h1 | h1
        · exact h1
        · exact absurd h1 hcp
      simpa [Action.apply, Outcome.hub, HandleWebSocket, register, Function.update, hcp]
        using hr c hc'
  | unregister p => exact unregister_registeredOpen h p hr
  | event e raw => exact handleEvent_registeredOpen h e raw hr
  | writePump p =>
    intro c hc
    by_cases hcp : c = p
    · subst hcp
      simpa [Action.apply, Outcome.hub, writePumpRecv, Hub.setSend, Chan.recv] using hr c hc
    · simpa [Action.apply, Outcome.hub, writePumpRecv, Hub.setSend, Function.update, hcp]
        using hr c hc
  | reorder clients channels =>
    simp only [Action.apply]
    split
    · rename_i hperm
      intro c hc
      exact hr c (hperm.1.mem_iff.mp hc)
    · exact hr

/-- Every registered connection of a hub reached from `NewHub` has an open send queue,
whatever the sequence of actions. -/
theorem registeredOpen_of_run :
    ∀ (acts : List Action) (h : Hub), RegisteredOpen h → RegisteredOpen (runActions h acts).hub
  | [], _, hr => hr
  | a :: rest, h, hr => by
    have h1 := apply_registeredOpen h a hr
    unfold runActions
    cases hout : a.apply h with
    | ok h' =>
      rw [hout] at h1
      exact registeredOpen_of_run rest h' h1
    | panic h' =>
      rw [hout] at h1
      exact h1

theorem registeredOpen_newHub : RegisteredOpen NewHub := by
  intro c hc
  simp [NewHub] at hc

/-! ## Disconnection -/

/-- C3: processing `unregister(c)` for a registered connection `c` (whose send queue is
open, as it is for every registered connection) runs without a panic and leaves `c`
out of the registry and out of every subscriber set, with its send queue closed and
holding what it held. From then on, whatever the hub and the write pumps do (any
sequence of actions that does not allocate a new connection at `c`), `c` stays out of
the registry and of every subscriber set and nothing is enqueued for it: its queue
stays closed and its content is always a suffix of what it held. -/
theorem c3_unregister_purges (h : Hub) (c : ClientPtr) (hreg : c ∈ h.clients)
    (hopen : (h.mem c).Send.closed = false) :
    (unregister h c).isOk = true ∧
      c ∉ (unregister h c).hub.clients ∧
      (∀ e ∈ (unregister h c).hub.channels, c ∉ e.2) ∧
      (∀ channelID, c ∉ (unregister h c).hub.subscribers channelID) ∧
      ((unregister h c).hub.mem c).Send.closed = true ∧
      ((unregister h c).hub.mem c).Send.buf = (h.mem c).Send.buf ∧
      ∀ acts : List Action, (∀ u, Action.connect c u ∉ acts) →
        c ∉ (runActions (unregister h c).hub acts).hub.clients ∧
        (∀ channelID, c ∉ (runActions (unregister h c).hub acts).hub.subscribers channelID) ∧
        ((runActions (unregister h c).hub acts).hub.mem c).Send.closed = true ∧
        ((runActions (unregister h c).hub acts).hub.mem c).Send.buf <:+ (h.mem c).Send.buf := by
  have hrun : unregister h c = Outcome.ok
      { mem := (h.setSend c { (h.mem c).Send with closed := true }).mem
        clients := setDelete h.clients c
        channels := (h.channels.map (fun e => (e.1, setDelete e.2 c))).filter
          (fun e => decide (e.2.length ≠ 0)) } := by
    simp [unregister, hreg, Chan.close, hopen]
  have hg : Gone c (unregister h c).hub := by
    rw [hrun]
    refine ⟨fun hx => ((mem_setDelete _ _ _).mp hx).2 rfl, ?_⟩
    intro e he
    simp only [Outcome.hub, List.mem_filter, List.mem_map] at he
    obtain ⟨⟨e0, _, rfl⟩, _⟩ := he
    exact fun hx => ((mem_setDelete _ _ _).mp hx).2 rfl
  have hclosed : ((unregister h c).hub.mem c).Send.closed = true := by
    rw [hrun]; simp [Outcome.hub, Hub.setSend]
  have hbuf : ((unregister h c).hub.mem c).Send.buf = (h.mem c).Send.buf := by
    rw [hrun]; simp [Outcome.hub, Hub.setSend]
  refine ⟨by rw [hrun]; rfl, hg.1, hg.2, hg.not_subscriber, hclosed, hbuf, ?_⟩
  intro acts hacts
  have h2 := runActions_gone c acts _ hacts hg
  exact ⟨h2.1.1, h2.1.not_subscriber, h2.2.2.trans hclosed, hbuf ▸ h2.2.1⟩

/-- C3 witness: A (address 1), registered and subscribed to "general" and "random",
is unregistered. -/
theorem c3_unregister_purges_witness :
    (1 ∈ (runActions NewHub (slowConsumer 0)).hub.clients ∧
      ((runActions NewHub (slowConsumer 0)).hub.mem 1).Send.closed = false) ∧
    (unregister (runActions NewHub (slowConsumer 0)).hub 1).isOk = true ∧
    1 ∉ (unregister (runActions NewHub (slowConsumer 0)).hub 1).hub.clients ∧
    1 ∉ (unregister (runActions NewHub (slowConsumer 0)).hub 1).hub.subscribers "random" :=
  ⟨⟨by decide, by decide⟩,
    (c3_unregister_purges (runActions NewHub (slowConsumer 0)).hub 1
      (by decide) (by decide)).1,
    (c3_unregister_purges (runActions NewHub (slowConsumer 0)).hub 1
      (by decide) (by decide)).2.1,
    (c3_unregister_purges (runActions NewHub (slowConsumer 0)).hub 1
      (by decide) (by decide)).2.2.2.1 "random"⟩

/-! ## Fan-out -/

theorem fanOut_delivers (ch : String) (m : Bytes) :
    ∀ (l : List ClientPtr) (h : Hub), l.Nodup → (∀ c ∈ l, (h.mem c).Send.closed = false) →
      (fanOut ch m l h).isOk = true ∧
      (∀ c ∈ l, (h.mem c).Send.buf.length < (h.mem c).Send.cap →
        ((fanOut ch m l h).hub.mem c).Send = { (h.mem c).Send with buf := (h.mem c).Send.buf ++ [m] }) ∧
      (∀ c ∈ l, ¬ (h.mem c).Send.buf.length < (h.mem c).Send.cap →
        ((fanOut ch m l h).hub.mem c).Send = { (h.mem c).Send with closed := true }) ∧
      (∀ c, c ∉ l → (fanOut ch m l h).hub.mem c = h.mem c)
  | [], h, _, _ => by simp [fanOut, Outcome.isOk, Outcome.hub]
  | client :: rest, h, hnd, hopen => by
    have hnd' := List.nodup_cons.mp hnd
    have hcl : (h.mem client).Send.closed = false := hopen client (List.mem_cons_self _ _)
    unfold fanOut
    by_cases hroom : (h.mem client).Send.buf.length < (h.mem client).Send.cap
    · have hs : (h.mem client).Send.trySend m
          = SendResult.sent { (h.mem client).Send with buf := (h.mem client).Send.buf ++ [m] } := by
        simp [Chan.trySend, hcl, hroom]
      rw [hs]
      simp only
      have hmem : ∀ c, c ≠ client →
          ((h.setSend client { (h.mem client).Send with
            buf := (h.mem client).Send.buf ++ [m] }).mem c) = h.mem c := by
        intro c hc
        simp [Hub.setSend, Function.update, hc]
      have hopen' : ∀ c ∈ rest, ((h.setSend client { (h.mem client).Send with
            buf := (h.mem client).Send.buf ++ [m] }).mem c).Send.closed = false := by
        intro c hc
        rw [hmem c (fun e => hnd'.1 (e ▸ hc))]
        exact hopen c (List.mem_cons_of_mem _ hc)
      obtain ⟨ih1, ih2, ih3, ih4⟩ := fanOut_delivers ch m rest _ hnd'.2 hopen'
      refine ⟨ih1, ?_, ?_, ?_⟩
      · intro c hc hr
        rcases List.mem_cons.mp hc with h1 | h1
        · subst h1
          rw [ih4 c hnd'.1]
          simp [Hub.setSend]
        · have hne : c ≠ client := fun e => hnd'.1 (e ▸ h1)
          have := ih2 c h1 (by rw [hmem c hne]; exact hr)
          rw [this, hmem c hne]
      · intro c hc hr
        rcases List.mem_cons.mp hc with h1 | h1
        · subst h1
          exact absurd hroom hr
        · have hne : c ≠ client := fun e => hnd'.1 (e ▸ h1)
          have := ih3 c h1 (by rw [hmem c hne]; exact hr)
          rw [this, hmem c hne]
      · intro c hc
        have hne : c ≠ client := fun e => hc (e ▸ List.mem_cons_self _ _)
        rw [ih4 c (fun e => hc (List.mem_cons_of_mem _ e)), hmem c hne]
    · have hs : (h.mem client).Send.trySend m = SendResult.full := by
        simp [Chan.trySend, hcl, hroom]
      have hc : (h.mem client).Send.close = some { (h.mem client).Send with closed := true } := by
        simp [Chan.close, hcl]
      rw [hs]
      simp only [hc]
      have hmem : ∀ c, c ≠ client →
          ((h.setSend client { (h.mem client).Send with closed := true }).mem c) = h.mem c := by
        intro c hc
        simp [Hub.setSend, Function.update, hc]
      have hopen' : ∀ c ∈ rest,
          ((h.setSend client { (h.mem client).Send with closed := true }).mem c).Send.closed
            = false := by
        intro c hc
        rw [hmem c (fun e => hnd'.1 (e ▸ hc))]
        exact hopen c (List.mem_cons_of_mem _ hc)
      obtain ⟨ih1, ih2, ih3, ih4⟩ := fanOut_delivers ch m rest
        { mem := (h.setSend client { (h.mem client).Send with closed := true }).mem
          clients := setDelete h.clients client
          channels := mapSet h.channels ch (setDelete (h.subscribers ch) client) }
        hnd'.2 hopen'
      refine ⟨ih1, ?_, ?_, ?_⟩
      · intro c hc hr
        rcases List.mem_cons.mp hc with h1 | h1
        · subst h1
          exact absurd hr hroom
        · have hne : c ≠ client := fun e => hnd'.1 (e ▸ h1)
          have := ih2 c h1 (by rw [hmem c hne]; exact hr)
          rw [this, hmem c hne]
      · intro c hc hr
        rcases List.mem_cons.mp hc with h1 | h1
        · subst h1
          rw [ih4 c hnd'.1]
          simp [Hub.setSend]
        · have hne : c ≠ client := fun e => hnd'.1 (e ▸ h1)
          have := ih3 c h1 (by rw [hmem c hne]; exact hr)
          rw [this, hmem c hne]
      · intro c hc
        have hne : c ≠ client := fun e => hc (e ▸ List.mem_cons_self _ _)
        rw [ih4 c (fun e => hc (List.mem_cons_of_mem _ e)), hmem c hne]

/-- Fan-out on a hub whose subscribers of the channel all have an open send queue (the
subscriber set holding each of them once): the broadcast runs without a panic; every
subscriber whose queue has room gets the payload appended once at the tail of its
queue; every subscriber whose queue is full has its queue closed and nothing
enqueued; the queue of every connection that is not subscribed is unchanged. -/
theorem broadcast_delivers_once (h : Hub) (event : Event) (rawMessage : Bytes)
    (htype : event.Type_ = "send_message" ∨ event.Type_ = "typing_start" ∨
      event.Type_ = "typing_stop" ∨ event.Type_ = "user_joined" ∨ event.Type_ = "user_left")
    (hnodup : (h.subscribers event.Channel).Nodup)
    (hopen : ∀ c ∈ h.subscribers event.Channel, (h.mem c).Send.closed = false) :
    (handleEvent h event rawMessage).isOk = true ∧
      (∀ c ∈ h.subscribers event.Channel,
        (h.mem c).Send.buf.length < (h.mem c).Send.cap →
          ((handleEvent h event rawMessage).hub.mem c).Send
            = { (h.mem c).Send with buf := (h.mem c).Send.buf ++ [rawMessage] }) ∧
      (∀ c ∈ h.subscribers event.Channel,
        ¬ (h.mem c).Send.buf.length < (h.mem c).Send.cap →
          ((handleEvent h event rawMessage).hub.mem c).Send
            = { (h.mem c).Send with closed := true }) ∧
      (∀ c, c ∉ h.subscribers event.Channel →
        (handleEvent h event rawMessage).hub.mem c = h.mem c) := by
  have hrun : handleEvent h event rawMessage = broadcastToChannel h event.Channel rawMessage := by
    unfold handleEvent
    rcases htype with ht | ht | ht | ht | ht <;> simp [ht]
  rw [hrun]
  unfold broadcastToChannel
  unfold Hub.subscribers at hnodup hopen ⊢
  cases hget : mapGet h.channels event.Channel with
  | none => simp [Outcome.isOk, Outcome.hub]
  | some l =>
    rw [hget] at hnodup hopen
    exact fanOut_delivers event.Channel rawMessage l h hnodup hopen

/-- C1 (evaluation at the failing input): in the hub reached when A, subscribed to
"general" and "random", has been shed by an overflowing broadcast on "general" and
its pending payloads have been written out, A is still in the subscriber set of
"random" with a queue that is not full; a `send_message` on "random" then panics
the coordinator and appends nothing to A's queue. -/
theorem c1_fanout_panics_on_shed_subscriber :
    (runActions NewHub
        (slowConsumer 257 ++ List.replicate 256 (Action.writePump 1))).isOk = true ∧
      1 ∈ shedHub.subscribers "random" ∧
      (shedHub.mem 1).Send.buf.length < (shedHub.mem 1).Send.cap ∧
      (shedHub.mem 1).Send.closed = true ∧
      (handleEvent shedHub (mkEvent "send_message" "random" "B") "hello").isOk = false ∧
      ((handleEvent shedHub (mkEvent "send_message" "random" "B") "hello").hub.mem 1).Send.buf
        = (shedHub.mem 1).Send.buf := by
  decide

/-- C2 (evaluation at the failing input): A is registered, subscribed to "general" and
"random", and its queue is filled to capacity. After a broadcast on "general" A is
out of the registry and out of "general", its queue is closed and holds what it
held, but A is still in the subscriber set of "random". -/
theorem c2_overflow_leaves_other_subscriptions :
    (1 ∈ fullQueueHub.clients ∧ 1 ∈ fullQueueHub.subscribers "general" ∧
      1 ∈ fullQueueHub.subscribers "random" ∧
      (fullQueueHub.mem 1).Send.buf.length = (fullQueueHub.mem 1).Send.cap ∧
      (fullQueueHub.mem 1).Send.closed = false) ∧
    (handleEvent fullQueueHub (mkEvent "send_message" "general" "B") "hello").isOk = true ∧
    1 ∉ (handleEvent fullQueueHub (mkEvent "send_message" "general" "B") "hello").hub.clients ∧
    1 ∉ (handleEvent fullQueueHub
          (mkEvent "send_message" "general" "B") "hello").hub.subscribers "general" ∧
    ((handleEvent fullQueueHub
          (mkEvent "send_message" "general" "B") "hello").hub.mem 1).Send.closed = true ∧
    ((handleEvent fullQueueHub (mkEvent "send_message" "general" "B") "hello").hub.mem 1).Send.buf
      = (fullQueueHub.mem 1).Send.buf ∧
    1 ∈ (handleEvent fullQueueHub
          (mkEvent "send_message" "general" "B") "hello").hub.subscribers "random" := by
  decide

/-- C8: a `send_message` whose channel has no index entry is handled without a panic
and leaves the whole hub as it was: no queue is touched, the registry and the
channel index are unchanged, and the channel still has no entry. -/
theorem c8_broadcast_to_absent_channel (h : Hub) (event : Event) (rawMessage : Bytes)
    (htype : event.Type_ = "send_message")
    (habsent : mapGet h.channels event.Channel = none) :
    handleEvent h event rawMessage = Outcome.ok h ∧
      mapGet (handleEvent h event rawMessage).hub.channels event.Channel = none := by
  have hrun : handleEvent h event rawMessage = Outcome.ok h := by
    simp [handleEvent, htype, broadcastToChannel, habsent]
  rw [hrun]
  exact ⟨rfl, habsent⟩

/-- C8 witness: A is subscribed to "general" only and a message is sent to "random". -/
theorem c8_broadcast_to_absent_channel_witness :
    handleEvent
        { mem := fun _ => newClient "A", clients := [1], channels := [("general", [1])] }
        (mkEvent "send_message" "random" "A") "hello"
      = Outcome.ok
        { mem := fun _ => newClient "A", clients := [1], channels := [("general", [1])] } ∧
    mapGet (handleEvent
        { mem := fun _ => newClient "A", clients := [1], channels := [("general", [1])] }
        (mkEvent "send_message" "random" "A") "hello").hub.channels
      (mkEvent "send_message" "random" "A").Channel = none :=
  c8_broadcast_to_absent_channel _ _ _ (by decide) (by decide)

/-! ## Empty channel entries -/

/-- C6 (evaluation at the failing input): A joins "general" and "random" and is shed by
the 257th message sent to "general" while its queue is full. The hub keeps an entry
for "general" whose subscriber set is empty. A join stamped with a name that no
registered connection carries has the same effect on a new hub. -/
theorem c6_empty_entry_after_shed :
    (runActions NewHub (slowConsumer 257)).isOk = true ∧
      mapGet (runActions NewHub (slowConsumer 257)).hub.channels "general" = some [] ∧
      (runActions NewHub
        [Action.event (mkEvent "join_channel" "general" "ghost") "join general"]).hub.channels
        = [("general", [])] := by
  decide

/-! ## Join and leave on one connection -/

theorem setInsert_idem (s : List ClientPtr) (c : ClientPtr) :
    setInsert (setInsert s c) c = setInsert s c := by
  have hmem : c ∈ setInsert s c := (mem_setInsert s c c).mpr (Or.inr rfl)
  show (if c ∈ setInsert s c then setInsert s c else setInsert s c ++ [c]) = setInsert s c
  rw [if_pos hmem]

theorem ensureChannel_of_some (m : ChannelMap) (k : String) (v : List ClientPtr)
    (hget : mapGet m k = some v) : ensureChannel m k = m := by
  unfold ensureChannel
  rw [hget]

theorem joinChannel_idem (h : Hub) (ch u : String) :
    joinChannel (joinChannel h ch u) ch u = joinChannel h ch u := by
  have hmem := joinChannel_mem h ch u
  have hcl := joinChannel_clients h ch u
  cases hf : h.clients.find? (fun client => decide ((h.mem client).Username = u)) with
  | none =>
    have h1 : joinChannel h ch u = { h with channels := ensureChannel h.channels ch } := by
      unfold joinChannel
      simp only [hf]
    have hget := mapGet_ensureChannel h.channels ch
    rw [h1]
    unfold joinChannel
    simp only [hf]
    congr 1
    exact ensureChannel_of_some _ _ _ hget
  | some client =>
    have h1 : joinChannel h ch u = { h with channels :=
        (mapSet (ensureChannel h.channels ch) ch
          (setInsert ((mapGet h.channels ch).getD []) client)) } := by
      unfold joinChannel
      simp only [hf, mapGet_ensureChannel, Option.getD_some]
    have hget : mapGet (mapSet (ensureChannel h.channels ch) ch
        (setInsert ((mapGet h.channels ch).getD []) client)) ch
        = some (setInsert ((mapGet h.channels ch).getD []) client) := by
      simp [mapGet_mapSet]
    rw [h1]
    unfold joinChannel
    simp only [hf]
    congr 1
    have hens : ensureChannel (mapSet (ensureChannel h.channels ch) ch
        (setInsert ((mapGet h.channels ch).getD []) client)) ch
        = mapSet (ensureChannel h.channels ch) ch
          (setInsert ((mapGet h.channels ch).getD []) client) := by
      exact ensureChannel_of_some _ _ _ hget
    rw [hens, hget, Option.getD_some, setInsert_idem, mapSet_eq_self _ _ _ hget]

/-! ## The subscription index against the session of joins and leaves -/

theorem keys_mapSet_list (m : ChannelMap) (k : String) (v : List ClientPtr) :
    (mapSet m k v).map Prod.fst
      = if k ∈ m.map Prod.fst then m.map Prod.fst else m.map Prod.fst ++ [k] := by
  induction m with
  | nil => simp [mapSet]
  | cons e rest ih =>
    obtain ⟨k0, v0⟩ := e
    by_cases h0 : k0 = k
    · subst h0
      simp [mapSet]
    · have h0' : ¬ k = k0 := fun e => h0 e.symm
      by_cases hk : k ∈ rest.map Prod.fst
      · rw [if_pos hk] at ih
        simp only [mapSet, h0, if_false, List.map_cons, ih]
        rw [if_pos (List.mem_cons_of_mem _ hk)]
      · rw [if_neg hk] at ih
        simp only [mapSet, h0, if_false, List.map_cons, ih]
        rw [if_neg (by simpa [h0'] using hk)]
        rfl

theorem nodup_keys_mapSet (m : ChannelMap) (k : String) (v : List ClientPtr)
    (hn : (m.map Prod.fst).Nodup) : ((mapSet m k v).map Prod.fst).Nodup := by
  rw [keys_mapSet_list]
  split
  · exact hn
  · rename_i hk
    exact List.Nodup.append hn (List.nodup_singleton k) (by simpa using hk)

theorem nodup_keys_ensureChannel (m : ChannelMap) (k : String)
    (hn : (m.map Prod.fst).Nodup) : ((ensureChannel m k).map Prod.fst).Nodup := by
  unfold ensureChannel
  split
  · exact nodup_keys_mapSet _ _ _ hn
  · exact hn

theorem nodup_keys_mapDelete (m : ChannelMap) (k : String)
    (hn : (m.map Prod.fst).Nodup) : ((mapDelete m k).map Prod.fst).Nodup :=
  hn.sublist ((List.filter_sublist _).map _)

theorem sameIndex_keys : ∀ (m' m : ChannelMap), sameIndex m' m = true →
    m'.map Prod.fst = m.map Prod.fst
  | [], [], _ => rfl
  | [], _ :: _, hs => by simp [sameIndex] at hs
  | _ :: _, [], hs => by simp [sameIndex] at hs
  | (k, v) :: rest, (k', v') :: rest', hs => by
    simp [sameIndex] at hs
    obtain ⟨⟨hk, _⟩, hrest⟩ := hs
    simp [hk, sameIndex_keys rest rest' hrest]

theorem sameIndex_subscribers (m' m : ChannelMap) (hs : sameIndex m' m = true)
    (k : String) (x : ClientPtr) :
    x ∈ (mapGet m' k).getD [] ↔ x ∈ (mapGet m k).getD [] := by
  rcases sameIndex_mapGet m' m hs k with ⟨h1, h2⟩ | ⟨v', v, h1, h2, hp⟩
  · simp [h1, h2]
  · simp [h1, h2, hp.mem_iff]

theorem subscribers_joinChannel (h : Hub) (ch u ch' : String) (client : ClientPtr)
    (hf : h.clients.find? (fun c => decide ((h.mem c).Username = u)) = some client) :
    (joinChannel h ch u).subscribers ch'
      = if ch = ch' then setInsert (h.subscribers ch) client else h.subscribers ch' := by
  unfold joinChannel Hub.subscribers
  simp only [hf, mapGet_ensureChannel, Option.getD_some, mapGet_mapSet]
  by_cases hc : ch = ch'
  · simp [hc]
  · simp [hc, mapGet_ensureChannel_ne _ _ _ hc]

theorem subscribers_leaveChannel (h : Hub) (ch u ch' : String) :
    (leaveChannel h ch u).subscribers ch'
      = if ch = ch' then
          (match (h.subscribers ch).find? (fun c => decide ((h.mem c).Username = u)) with
           | some client => setDelete (h.subscribers ch) client
           | none => h.subscribers ch)
        else h.subscribers ch' := by
  unfold leaveChannel Hub.subscribers
  cases hget : mapGet h.channels ch with
  | none =>
    by_cases hc : ch = ch'
    · subst hc
      simp [hget]
    · simp [hc]
  | some l =>
    simp only [Option.getD_some]
    split
    · rename_i hlen
      simp only [mapGet_mapDelete]
      by_cases hc : ch = ch'
      · simp only [hc, if_true, Option.getD_none]
        exact (List.eq_nil_of_length_eq_zero hlen).symm
      · simp [hc]
    · simp only [mapGet_mapSet]
      by_cases hc : ch = ch'
      · simp only [hc, if_true, Option.getD_some]
      · simp [hc]

theorem subscribers_unregister_aux (c : ClientPtr) (k : String) :
    ∀ (m : ChannelMap), (m.map Prod.fst).Nodup →
      (mapGet ((m.map (fun e => (e.1, setDelete e.2 c))).filter
          (fun e => decide (e.2.length ≠ 0))) k).getD []
        = setDelete ((mapGet m k).getD []) c
  | [], _ => by simp [mapGet, setDelete]
  | (k0, v0) :: rest, hn => by
    have hn' : k0 ∉ rest.map Prod.fst ∧ (rest.map Prod.fst).Nodup := List.nodup_cons.mp hn
    have ih := subscribers_unregister_aux c k rest hn'.2
    by_cases h0 : k0 = k
    · subst h0
      have hnone : mapGet ((rest.map (fun e => (e.1, setDelete e.2 c))).filter
          (fun e => decide (e.2.length ≠ 0))) k0 = none := by
        rw [mapGet_eq_none_iff]
        intro e he
        simp only [List.mem_filter, List.mem_map] at he
        obtain ⟨⟨e0, he0, rfl⟩, _⟩ := he
        intro heq
        exact hn'.1 (List.mem_map.mpr ⟨e0, he0, heq⟩)
      by_cases hl : setDelete v0 c = []
      · have hl' : (setDelete v0 c).length = 0 := by rw [hl]; rfl
        simp only [List.map_cons, List.filter_cons, hl', ne_eq, not_true_eq_false,
          decide_False, Bool.false_eq_true, if_false, hnone, Option.getD_none, mapGet, if_true,
          Option.getD_some]
        exact hl.symm
      · have hl' : ¬ (setDelete v0 c).length = 0 := fun e => hl (List.eq_nil_of_length_eq_zero e)
        simp only [List.map_cons, List.filter_cons, hl', ne_eq, not_false_eq_true,
          decide_True, if_true, mapGet, Option.getD_some]
    · by_cases hl : setDelete v0 c = []
      · have hl' : (setDelete v0 c).length = 0 := by rw [hl]; rfl
        simp only [List.map_cons, List.filter_cons, hl', ne_eq, not_true_eq_false,
          decide_False, Bool.false_eq_true, if_false, mapGet, h0]
        exact ih
      · have hl' : ¬ (setDelete v0 c).length = 0 := fun e => hl (List.eq_nil_of_length_eq_zero e)
        simp only [List.map_cons, List.filter_cons, hl', ne_eq, not_false_eq_true,
          decide_True, if_true, mapGet, h0, if_false]
        exact ih

theorem find?_unique (l : List ClientPtr) (p : ClientPtr → Bool) (c : ClientPtr)
    (hc : c ∈ l) (hpc : p c = true) (huniq : ∀ x ∈ l, p x = true → x = c) :
    l.find? p = some c := by
  cases hf : l.find? p with
  | none =>
    have := List.find?_eq_none.mp hf c hc
    exact absurd hpc this
  | some x =>
    rw [huniq x (List.mem_of_find?_eq_some hf) (List.find?_some hf)]

theorem find?_absent (l : List ClientPtr) (p : ClientPtr → Bool) (c : ClientPtr)
    (hc : c ∉ l) (huniq : ∀ x ∈ l, p x = true → x = c) : l.find? p = none := by
  rw [List.find?_eq_none]
  intro x hx hpx
  exact hc (huniq x hx hpx ▸ hx)

theorem Refines.unique_name {h : Hub} {s : Session} (hr : Refines h s) {x c : ClientPtr}
    (hx : x ∈ h.clients) (hc : c ∈ h.clients)
    (hname : (h.mem x).Username = (h.mem c).Username) : x = c := by
  obtain ⟨p, hp, hpx⟩ := List.mem_map.mp ((hr.registered x).mp hx)
  obtain ⟨q, hq, hqc⟩ := List.mem_map.mp ((hr.registered c).mp hc)
  have h1 := hr.names p hp
  have h2 := hr.names q hq
  rw [hpx] at h1
  rw [hqc] at h2
  have := hr.distinct p hp q hq (by rw [← h1, ← h2, hname])
  rw [← hpx, ← hqc, this]

theorem Refines.subscriber_registered {h : Hub} {s : Session} (hr : Refines h s)
    {x : ClientPtr} {ch : String} (hx : x ∈ h.subscribers ch) : x ∈ h.clients :=
  (hr.registered x).mpr (hr.connected _ ((hr.subscribed x ch).mp hx))

theorem refines_connect (h : Hub) (s : Session) (c : ClientPtr) (u : String)
    (hr : Refines h s) (hv : (ConnAction.connect c u).valid true s) :
    Refines (HandleWebSocket h c u) (s.step (ConnAction.connect c u)) := by
  obtain ⟨hfresh, hname⟩ := hv
  have hname := hname rfl
  constructor
  · intro x
    simp only [HandleWebSocket, register, mem_setInsert, Session.step, List.map_cons,
      List.mem_cons, hr.registered x]
    tauto
  · intro p hp
    simp only [Session.step, List.mem_cons] at hp
    rcases hp with hp | hp
    · subst hp
      simp [HandleWebSocket, register, newClient, displayName]
    · have hne : p.1 ≠ c := fun e => hfresh (e ▸ List.mem_map.mpr ⟨p, hp, rfl⟩)
      simpa [HandleWebSocket, register, Function.update, hne] using hr.names p hp
  · intro p hp q hq hpq
    simp only [Session.step, List.mem_cons] at hp hq
    rcases hp with hp | hp <;> rcases hq with hq | hq
    · rw [hp, hq]
    · subst hp
      exact absurd (List.mem_map.mpr ⟨q, hq, hpq.symm⟩) hname
    · subst hq
      exact absurd (List.mem_map.mpr ⟨p, hp, hpq⟩) hname
    · exact hr.distinct p hp q hq hpq
  · intro x ch
    exact hr.subscribed x ch
  · intro p hp
    simp only [Session.step, List.map_cons, List.mem_cons]
    exact Or.inr (hr.connected p hp)
  · exact apply_registeredOpen h (Action.connect c u) hr.isOpen
  · exact hr.keys

theorem refines_disconnect (h : Hub) (s : Session) (c : ClientPtr)
    (hr : Refines h s) (hv : (ConnAction.disconnect c).valid true s) :
    ∃ h', unregister h c = Outcome.ok h' ∧ Refines h' (s.step (ConnAction.disconnect c)) := by
  have hreg : c ∈ h.clients := (hr.registered c).mpr hv
  have hopen := hr.isOpen c hreg
  have hrun : unregister h c = Outcome.ok
      { mem := (h.setSend c { (h.mem c).Send with closed := true }).mem
        clients := setDelete h.clients c
        channels := (h.channels.map (fun e => (e.1, setDelete e.2 c))).filter
          (fun e => decide (e.2.length ≠ 0)) } := by
    simp [unregister, hreg, Chan.close, hopen]
  refine ⟨_, hrun, ?_⟩
  constructor
  · intro x
    simp only [mem_setDelete, Session.step, List.mem_map, List.mem_filter, decide_eq_true_eq,
      hr.registered x]
    constructor
    · rintro ⟨⟨p, hp, rfl⟩, hne⟩
      exact ⟨p, ⟨hp, hne⟩, rfl⟩
    · rintro ⟨p, ⟨hp, hne⟩, rfl⟩
      exact ⟨⟨p, hp, rfl⟩, hne⟩
  · intro p hp
    simp only [Session.step, List.mem_filter, decide_eq_true_eq] at hp
    simpa [Hub.setSend, Function.update, hp.2] using hr.names p hp.1
  · intro p hp q hq hpq
    simp only [Session.step, List.mem_filter] at hp hq
    exact hr.distinct p hp.1 q hq.1 hpq
  · intro x ch
    have := subscribers_unregister_aux c ch h.channels hr.keys
    simp only [Hub.subscribers, this, mem_setDelete, Session.step, List.mem_filter,
      decide_eq_true_eq]
    rw [← hr.subscribed x ch]
    rfl
  · intro p hp
    simp only [Session.step, List.mem_filter, decide_eq_true_eq, List.mem_map] at hp ⊢
    obtain ⟨q, hq, hqp⟩ := List.mem_map.mp (hr.connected p hp.1)
    exact ⟨q, ⟨hq, by rw [hqp]; exact hp.2⟩, hqp⟩
  · have := unregister_registeredOpen h c hr.isOpen
    rwa [hrun] at this
  · have hsub : List.Sublist
        (((h.channels.map (fun e => (e.1, setDelete e.2 c))).filter
          (fun e => decide (e.2.length ≠ 0))).map Prod.fst)
        ((h.channels.map (fun e => (e.1, setDelete e.2 c))).map Prod.fst) :=
      (List.filter_sublist _).map _
    have hkeys : (h.channels.map (fun e => (e.1, setDelete e.2 c))).map Prod.fst
        = h.channels.map Prod.fst := by
      simp [List.map_map, Function.comp_def]
    rw [hkeys] at hsub
    exact hr.keys.sublist hsub

theorem nodup_keys_joinChannel (h : Hub) (ch u : String) (hn : (h.channels.map Prod.fst).Nodup) :
    ((joinChannel h ch u).channels.map Prod.fst).Nodup := by
  unfold joinChannel
  simp only
  split
  · exact nodup_keys_mapSet _ _ _ (nodup_keys_ensureChannel _ _ hn)
  · exact nodup_keys_ensureChannel _ _ hn

theorem nodup_keys_leaveChannel (h : Hub) (ch u : String) (hn : (h.channels.map Prod.fst).Nodup) :
    ((leaveChannel h ch u).channels.map Prod.fst).Nodup := by
  unfold leaveChannel
  split
  · exact hn
  · simp only
    split
    · exact nodup_keys_mapDelete _ _ hn
    · exact nodup_keys_mapSet _ _ _ hn

theorem refines_join (h : Hub) (s : Session) (c : ClientPtr) (ch : String)
    (hr : Refines h s) (hc : c ∈ s.conns.map Prod.fst) :
    Refines (joinChannel h ch (h.mem c).Username) { s with joined := (c, ch) :: s.joined } := by
  have hreg : c ∈ h.clients := (hr.registered c).mpr hc
  have hfind : h.clients.find? (fun x => decide ((h.mem x).Username = (h.mem c).Username))
      = some c :=
    find?_unique _ _ c hreg (by simp)
      (fun x hx hpx => hr.unique_name hx hreg (by simpa using hpx))
  constructor
  · intro x
    rw [joinChannel_clients]
    exact hr.registered x
  · intro p hp
    rw [joinChannel_mem]
    exact hr.names p hp
  · exact hr.distinct
  · intro x ch'
    rw [subscribers_joinChannel h ch _ ch' c hfind]
    simp only [List.mem_cons, Prod.mk.injEq]
    by_cases hcc : ch = ch'
    · subst hcc
      simp only [if_true, mem_setInsert, hr.subscribed x ch, and_true]
      exact Or.comm
    · simp only [hcc, if_false, hr.subscribed x ch']
      constructor
      · exact Or.inr
      · rintro (h1 | h1)
        · exact absurd h1.2.symm hcc
        · exact h1
  · intro p hp
    simp only [List.mem_cons] at hp
    rcases hp with hp | hp
    · rw [hp]; exact hc
    · exact hr.connected p hp
  · intro x hx
    rw [joinChannel_mem]
    exact hr.isOpen x (joinChannel_clients h _ _ ▸ hx)
  · exact nodup_keys_joinChannel _ _ _ hr.keys

theorem refines_leave (h : Hub) (s : Session) (c : ClientPtr) (ch : String)
    (hr : Refines h s) (hc : c ∈ s.conns.map Prod.fst) :
    Refines (leaveChannel h ch (h.mem c).Username)
      { s with joined := s.joined.filter (fun p => decide (p ≠ (c, ch))) } := by
  have hreg : c ∈ h.clients := (hr.registered c).mpr hc
  have huniq : ∀ x ∈ h.subscribers ch,
      decide ((h.mem x).Username = (h.mem c).Username) = true → x = c :=
    fun x hx hpx => hr.unique_name (hr.subscriber_registered hx) hreg (by simpa using hpx)
  have hsubs : (leaveChannel h ch (h.mem c).Username).subscribers ch
      = setDelete (h.subscribers ch) c := by
    rw [subscribers_leaveChannel, if_pos rfl]
    by_cases hmem : c ∈ h.subscribers ch
    · rw [find?_unique _ _ c hmem (by simp) huniq]
    · rw [find?_absent _ _ c hmem huniq]
      simp only [setDelete]
      symm
      apply List.filter_eq_self.mpr
      intro x hx
      have hne : x ≠ c := fun e => hmem (e ▸ hx)
      simpa using hne
  constructor
  · intro x
    rw [leaveChannel_clients]
    exact hr.registered x
  · intro p hp
    rw [leaveChannel_mem]
    exact hr.names p hp
  · exact hr.distinct
  · intro x ch'
    simp only [List.mem_filter, decide_eq_true_eq, ne_eq, Prod.mk.injEq, not_and]
    by_cases hcc : ch = ch'
    · subst hcc
      rw [hsubs, mem_setDelete, hr.subscribed x ch]
      constructor
      · rintro ⟨h1, h2⟩
        exact ⟨h1, fun e => absurd e h2⟩
      · rintro ⟨h1, h2⟩
        exact ⟨h1, fun e => h2 e rfl⟩
    · rw [subscribers_leaveChannel, if_neg hcc, hr.subscribed x ch']
      constructor
      · intro h1
        exact ⟨h1, fun _ e => hcc e.symm⟩
      · exact fun h1 => h1.1
  · intro p hp
    exact hr.connected p (List.mem_filter.mp hp).1
  · intro x hx
    rw [leaveChannel_mem]
    exact hr.isOpen x (leaveChannel_clients h _ _ ▸ hx)
  · exact nodup_keys_leaveChannel _ _ _ hr.keys

theorem refines_reorder (h : Hub) (s : Session) (clients : List ClientPtr)
    (channels : ChannelMap) (hr : Refines h s)
    (hp : clients.Perm h.clients ∧ sameIndex channels h.channels = true) :
    Refines { h with clients := clients, channels := channels } s := by
  constructor
  · intro x
    rw [← hr.registered x]
    exact hp.1.mem_iff
  · exact hr.names
  · exact hr.distinct
  · intro x ch
    rw [← hr.subscribed x ch]
    exact sameIndex_subscribers _ _ hp.2 ch x
  · exact hr.connected
  · intro x hx
    exact hr.isOpen x (hp.1.mem_iff.mp hx)
  · show (channels.map Prod.fst).Nodup
    rw [sameIndex_keys _ _ hp.2]
    exact hr.keys

theorem refines_step (h : Hub) (s : Session) (a : ConnAction) (hr : Refines h s)
    (hv : a.valid true s) :
    ∃ h', (a.toAction h).apply h = Outcome.ok h' ∧ Refines h' (s.step a) := by
  cases a with
  | connect c u => exact ⟨_, rfl, refines_connect h s c u hr hv⟩
  | disconnect c => exact refines_disconnect h s c hr hv
  | frame c e now raw =>
    obtain ⟨hc, he⟩ := hv
    rcases he with he | he
    · refine ⟨joinChannel h e.Channel (h.mem c).Username, ?_, ?_⟩
      · simp [ConnAction.toAction, Action.apply, handleEvent, stampSender, he]
      · simp only [Session.step, he, if_true]
        exact refines_join h s c e.Channel hr hc
    · have hne : ¬ e.Type_ = "join_channel" := by rw [he]; decide
      refine ⟨leaveChannel h e.Channel (h.mem c).Username, ?_, ?_⟩
      · simp [ConnAction.toAction, Action.apply, handleEvent, stampSender, he]
      · simp only [Session.step, hne, he, if_false, if_true]
        exact refines_leave h s c e.Channel hr hc
  | reorder clients channels =>
    simp only [ConnAction.toAction, Action.apply, Session.step]
    split
    · rename_i hp
      exact ⟨_, rfl, refines_reorder h s clients channels hr hp⟩
    · exact ⟨_, rfl, hr⟩

theorem refines_run : ∀ (trace : List ConnAction) (h : Hub) (s : Session),
    Refines h s → validTrace true s trace →
      ∃ h', runConn h trace = Outcome.ok h' ∧ Refines h' (Session.run s trace)
  | [], h, s, hr, _ => ⟨h, rfl, hr⟩
  | a :: rest, h, s, hr, hv => by
    obtain ⟨h1, hrun, hr1⟩ := refines_step h s a hr hv.1
    obtain ⟨h2, hrun2, hr2⟩ := refines_run rest h1 (s.step a) hr1 hv.2
    refine ⟨h2, ?_, hr2⟩
    simp only [runConn, hrun]
    exact hrun2

theorem refines_newHub : Refines NewHub Session.empty := by
  constructor <;> simp [NewHub, Session.empty, Hub.subscribers, mapGet, RegisteredOpen]

theorem joined_step_iff (s : Session) (a : ConnAction) (c : ClientPtr) (channelID : String) :
    (c, channelID) ∈ (s.step a).joined ↔
      a.joins c channelID ∨ ((c, channelID) ∈ s.joined ∧ ¬ a.cancels c channelID) := by
  cases a with
  | connect c' u => simp [Session.step, ConnAction.joins, ConnAction.cancels]
  | disconnect c' =>
    simp only [Session.step, ConnAction.joins, ConnAction.cancels, List.mem_filter,
      decide_eq_true_eq, false_or]
    constructor
    · rintro ⟨h1, h2⟩
      exact ⟨h1, fun e => h2 e.symm⟩
    · rintro ⟨h1, h2⟩
      exact ⟨h1, fun e => h2 e.symm⟩
  | frame c' e now raw =>
    show _ ↔ (c' = c ∧ e.Type_ = "join_channel" ∧ e.Channel = channelID) ∨
      ((c, channelID) ∈ s.joined ∧
        ¬ (c' = c ∧ e.Type_ = "leave_channel" ∧ e.Channel = channelID))
    by_cases hj : e.Type_ = "join_channel"
    · have hnl : ¬ e.Type_ = "leave_channel" := by rw [hj]; decide
      have hstep : (s.step (ConnAction.frame c' e now raw)).joined
          = (c', e.Channel) :: s.joined := by
        simp [Session.step, hj]
      rw [hstep]
      simp only [List.mem_cons, Prod.mk.injEq]
      constructor
      · rintro (⟨h1, h2⟩ | h1)
        · exact Or.inl ⟨h1.symm, hj, h2.symm⟩
        · exact Or.inr ⟨h1, fun h => hnl h.2.1⟩
      · rintro (⟨h1, _, h2⟩ | h1)
        · exact Or.inl ⟨h1.symm, h2.symm⟩
        · exact Or.inr h1.1
    · by_cases hl : e.Type_ = "leave_channel"
      · have hstep : (s.step (ConnAction.frame c' e now raw)).joined
            = s.joined.filter (fun p => decide (p ≠ (c', e.Channel))) := by
          simp [Session.step, hj, hl]
        rw [hstep]
        simp only [List.mem_filter, decide_eq_true_eq, ne_eq, Prod.mk.injEq]
        constructor
        · rintro ⟨h1, h2⟩
          exact Or.inr ⟨h1, fun h => h2 ⟨h.1.symm, h.2.2.symm⟩⟩
        · rintro (⟨_, h1, _⟩ | ⟨h1, h2⟩)
          · exact absurd h1 hj
          · exact ⟨h1, fun h => h2 ⟨h.1.symm, hl, h.2.symm⟩⟩
      · have hstep : (s.step (ConnAction.frame c' e now raw)).joined = s.joined := by
          simp [Session.step, hj, hl]
        rw [hstep]
        constructor
        · intro h1
          exact Or.inr ⟨h1, fun h => hl h.2.1⟩
        · rintro (⟨_, h1, _⟩ | ⟨h1, _⟩)
          · exact absurd h1 hj
          · exact h1
  | reorder cl chs => simp [Session.step, ConnAction.joins, ConnAction.cancels]

/-- The pairs of the session, in the words of the specification: `c` is subscribed to
a channel after a trace exactly when it was subscribed before and nothing in the
trace undoes that, or the trace contains a join of `c` for the channel that is
followed neither by a leave of `c` for it nor by `c`'s disconnection. -/
theorem joined_iff_unanswered_join (c : ClientPtr) (channelID : String) :
    ∀ (trace : List ConnAction) (s : Session),
      (c, channelID) ∈ (Session.run s trace).joined ↔
        ((c, channelID) ∈ s.joined ∧ ∀ a ∈ trace, ¬ a.cancels c channelID) ∨
        ∃ pre a post, trace = pre ++ a :: post ∧ a.joins c channelID ∧
          ∀ b ∈ post, ¬ b.cancels c channelID
  | [], s => by simp [Session.run]
  | a :: rest, s => by
    rw [Session.run, joined_iff_unanswered_join c channelID rest (s.step a), joined_step_iff]
    constructor
    · rintro (⟨hj | ⟨hin, hnc⟩, hrest⟩ | ⟨pre, b, post, heq, hb, hpost⟩)
      · exact Or.inr ⟨[], a, rest, rfl, hj, hrest⟩
      · left
        refine ⟨hin, ?_⟩
        intro x hx
        rcases List.mem_cons.mp hx with h1 | h1
        · rw [h1]; exact hnc
        · exact hrest x h1
      · exact Or.inr ⟨a :: pre, b, post, by rw [heq]; rfl, hb, hpost⟩
    · rintro (⟨hin, hall⟩ | ⟨pre, b, post, heq, hb, hpost⟩)
      · exact Or.inl ⟨Or.inr ⟨hin, hall a (List.mem_cons_self _ _)⟩,
          fun x hx => hall x (List.mem_cons_of_mem _ hx)⟩
      · cases pre with
        | nil =>
          simp only [List.nil_append, List.cons.injEq] at heq
          obtain ⟨h1, h2⟩ := heq
          subst h1
          subst h2
          exact Or.inl ⟨Or.inl hb, hpost⟩
        | cons p pre' =>
          simp only [List.cons_append, List.cons.injEq] at heq
          exact Or.inr ⟨pre', b, post, heq.2, hb, hpost⟩

/-- C4 (counterexample): two connections carry the display name "A"; the first joins
"general" and the second, which never joined, sends a leave for "general". The
trace is a handshake, a handshake, the join of connection 1, and one more frame that
is neither a leave issued by connection 1 nor its disconnection; yet connection 1
is not in the subscriber set of "general" afterwards. The same holds when the
registry is visited in the other order. -/
theorem c4_same_name_counterexample :
    (validTrace false Session.empty sameNameTrace ∧
      (sameNameTrace
          = [ConnAction.connect 1 "A", ConnAction.connect 2 "A"]
            ++ ConnAction.frame 1 (mkEvent "join_channel" "general" "") 100 "join"
              :: [ConnAction.frame 2 (mkEvent "leave_channel" "general" "") 101 "leave"] ∧
        (ConnAction.frame 1 (mkEvent "join_channel" "general" "") 100 "join").joins 1
          "general" ∧
        ∀ b ∈ [ConnAction.frame 2 (mkEvent "leave_channel" "general" "") 101 "leave"],
          ¬ b.cancels 1 "general") ∧
      (1, "general") ∈ (Session.run Session.empty sameNameTrace).joined ∧
      (runConn NewHub sameNameTrace).isOk = true ∧
      1 ∉ (runConn NewHub sameNameTrace).hub.subscribers "general") ∧
    (validTrace false Session.empty sameNameTraceReordered ∧
      (1, "general") ∈ (Session.run Session.empty sameNameTraceReordered).joined ∧
      (runConn NewHub sameNameTraceReordered).isOk = true ∧
      1 ∉ (runConn NewHub sameNameTraceReordered).hub.subscribers "general") := by
  refine ⟨⟨?_, ⟨rfl, ?_, ?_⟩, by decide, by decide, by decide⟩,
    ⟨?_, by decide, by decide, by decide⟩⟩
  · simp [validTrace, sameNameTrace, ConnAction.valid, Session.step, Session.empty, mkEvent,
      displayName]
  · simp [ConnAction.joins, mkEvent]
  · simp [ConnAction.cancels]
  · simp [validTrace, sameNameTraceReordered, ConnAction.valid, Session.step, Session.empty,
      mkEvent, displayName]

/-- C4 (amended): along every sequence of handshakes, disconnections, join/leave frames
and map reorderings in which each handshake creates a new connection under a display
name that no connected connection carries, and only connected connections
disconnect or send frames, the hub never panics, and a connection `c` is in the
subscriber set of a channel exactly when the sequence contains a join of `c` for
that channel that is followed neither by a leave of `c` for it nor by `c`'s
disconnection. -/
theorem c4_index_tracks_joins_distinct_names (trace : List ConnAction)
    (hvalid : validTrace true Session.empty trace) :
    (runConn NewHub trace).isOk = true ∧
      ∀ (c : ClientPtr) (channelID : String),
        c ∈ (runConn NewHub trace).hub.subscribers channelID ↔
          ∃ pre a post, trace = pre ++ a :: post ∧ a.joins c channelID ∧
            ∀ b ∈ post, ¬ b.cancels c channelID := by
  obtain ⟨h', hrun, hr⟩ := refines_run trace NewHub Session.empty refines_newHub hvalid
  rw [hrun]
  refine ⟨rfl, ?_⟩
  intro c channelID
  have h1 := hr.subscribed c channelID
  have h2 := joined_iff_unanswered_join c channelID trace Session.empty
  simp only [Session.empty, List.not_mem_nil, false_and, false_or] at h2
  exact h1.trans h2

/-- C4 witness: "A" and "B" join and leave, "A" disconnects; "B" ends up subscribed to
"random". -/
theorem c4_index_tracks_joins_distinct_names_witness :
    validTrace true Session.empty distinctNameTrace ∧
      (runConn NewHub distinctNameTrace).isOk = true ∧
      (2 ∈ (runConn NewHub distinctNameTrace).hub.subscribers "random" ↔
        ∃ pre a post, distinctNameTrace = pre ++ a :: post ∧ a.joins 2 "random" ∧
          ∀ b ∈ post, ¬ b.cancels 2 "random") :=
  have hvalid : validTrace true Session.empty distinctNameTrace := by
    simp [validTrace, distinctNameTrace, ConnAction.valid, Session.step, Session.empty,
      mkEvent, displayName]
  ⟨hvalid, (c4_index_tracks_joins_distinct_names distinctNameTrace hvalid).1,
    (c4_index_tracks_joins_distinct_names distinctNameTrace hvalid).2 2 "random"⟩

/-! ## Join and leave stamped by one connection -/

theorem mapGet_of_mem_nodup : ∀ (m : ChannelMap), (m.map Prod.fst).Nodup →
    ∀ (k : String) (v : List ClientPtr), (k, v) ∈ m → mapGet m k = some v
  | [], _, _, _, hmem => by simp at hmem
  | (k0, v0) :: rest, hn, k, v, hmem => by
    have hn' : k0 ∉ rest.map Prod.fst ∧ (rest.map Prod.fst).Nodup := List.nodup_cons.mp hn
    rcases List.mem_cons.mp hmem with h1 | h1
    · cases h1
      simp [mapGet]
    · have hne : k0 ≠ k := fun e => hn'.1 (e ▸ List.mem_map.mpr ⟨(k, v), h1, rfl⟩)
      simp only [mapGet, hne, if_false]
      exact mapGet_of_mem_nodup rest hn'.2 k v h1

theorem mem_indexedChannels (h : Hub) (c : ClientPtr) (ch : String)
    (hkeys : (h.channels.map Prod.fst).Nodup) :
    ch ∈ indexedChannels h c ↔ c ∈ h.subscribers ch := by
  simp only [indexedChannels, List.mem_toFinset, List.mem_map, List.mem_filter,
    decide_eq_true_eq]
  constructor
  · rintro ⟨e, ⟨he, hc⟩, rfl⟩
    have := mapGet_of_mem_nodup h.channels hkeys e.1 e.2 he
    simp [Hub.subscribers, this, hc]
  · intro hc
    obtain ⟨e, he, hk, hx⟩ := subscribers_mem_entry h ch c hc
    exact ⟨e, ⟨he, hx⟩, hk⟩

theorem own_name_subscribers (h : Hub) (c : ClientPtr)
    (hindex : ∀ e ∈ h.channels, ∀ x ∈ e.2, (h.mem x).Username = (h.mem c).Username → x = c)
    (ch : String) (x : ClientPtr) (hx : x ∈ h.subscribers ch)
    (hname : (h.mem x).Username = (h.mem c).Username) : x = c := by
  obtain ⟨e, he, _, hxe⟩ := subscribers_mem_entry h ch x hx
  exact hindex e he x hxe hname

theorem own_join (h : Hub) (c : ClientPtr) (ch : String) (hreg : c ∈ h.clients)
    (hregistry : ∀ x ∈ h.clients, (h.mem x).Username = (h.mem c).Username → x = c) :
    ∀ ch', (joinChannel h ch (h.mem c).Username).subscribers ch'
      = if ch = ch' then setInsert (h.subscribers ch) c else h.subscribers ch' := by
  intro ch'
  have hfind : h.clients.find? (fun x => decide ((h.mem x).Username = (h.mem c).Username))
      = some c :=
    find?_unique _ _ c hreg (by simp) (fun x hx hpx => hregistry x hx (by simpa using hpx))
  exact subscribers_joinChannel h ch _ ch' c hfind

theorem own_leave (h : Hub) (c : ClientPtr) (ch : String)
    (hsubs : ∀ ch x, x ∈ h.subscribers ch → (h.mem x).Username = (h.mem c).Username → x = c) :
    ∀ ch', (leaveChannel h ch (h.mem c).Username).subscribers ch'
      = if ch = ch' then setDelete (h.subscribers ch) c else h.subscribers ch' := by
  intro ch'
  rw [subscribers_leaveChannel]
  by_cases hcc : ch = ch'
  · rw [if_pos hcc, if_pos hcc]
    have huniq : ∀ x ∈ h.subscribers ch,
        decide ((h.mem x).Username = (h.mem c).Username) = true → x = c :=
      fun x hx hpx => hsubs ch x hx (by simpa using hpx)
    by_cases hmem : c ∈ h.subscribers ch
    · rw [find?_unique _ _ c hmem (by simp) huniq]
    · rw [find?_absent _ _ c hmem huniq]
      simp only [setDelete]
      symm
      apply List.filter_eq_self.mpr
      intro x hx
      have hne : x ≠ c := fun e => hmem (e ▸ hx)
      simpa using hne
  · rw [if_neg hcc, if_neg hcc]

theorem entries_of_subscribers (h : Hub) (hkeys : (h.channels.map Prod.fst).Nodup)
    (e : String × List ClientPtr) (he : e ∈ h.channels) : e.2 = h.subscribers e.1 := by
  have := mapGet_of_mem_nodup h.channels hkeys e.1 e.2 he
  simp [Hub.subscribers, this]

/-- The hypotheses on `c` are kept by a join or a leave stamped with its name, and the
subscriber sets change only by `c` entering or leaving the channel of the event. -/
theorem own_step (h : Hub) (c : ClientPtr) (e : Event) (raw : Bytes)
    (hreg : c ∈ h.clients) (hkeys : (h.channels.map Prod.fst).Nodup)
    (hregistry : ∀ x ∈ h.clients, (h.mem x).Username = (h.mem c).Username → x = c)
    (hindex : ∀ e ∈ h.channels, ∀ x ∈ e.2, (h.mem x).Username = (h.mem c).Username → x = c)
    (hty : e.Type_ = "join_channel" ∨ e.Type_ = "leave_channel")
    (hfrom : e.From = (h.mem c).Username) :
    ∃ h', handleEvent h e raw = Outcome.ok h' ∧ h'.mem = h.mem ∧ h'.clients = h.clients ∧
      (h'.channels.map Prod.fst).Nodup ∧
      (∀ e' ∈ h'.channels, ∀ x ∈ e'.2, (h'.mem x).Username = (h'.mem c).Username → x = c) ∧
      (∀ ch', h'.subscribers ch'
        = if e.Channel = ch' then
            (if e.Type_ = "join_channel" then setInsert (h.subscribers e.Channel) c
              else setDelete (h.subscribers e.Channel) c)
          else h.subscribers ch') := by
  have hsubs := own_name_subscribers h c hindex
  rcases hty with hty | hty
  · refine ⟨joinChannel h e.Channel e.From, by simp [handleEvent, hty], joinChannel_mem _ _ _,
      joinChannel_clients _ _ _, nodup_keys_joinChannel _ _ _ hkeys, ?_, ?_⟩
    · intro e' he' x hx hname
      rw [joinChannel_mem] at hname
      rw [entries_of_subscribers _ (nodup_keys_joinChannel _ _ _ hkeys) e' he', hfrom,
        own_join h c e.Channel hreg hregistry] at hx
      split at hx
      · rcases (mem_setInsert _ _ _).mp hx with h1 | h1
        · exact hsubs _ x h1 hname
        · exact h1
      · exact hsubs _ x hx hname
    · intro ch'
      rw [hfrom, own_join h c e.Channel hreg hregistry, if_pos hty]
  · have hne : ¬ e.Type_ = "join_channel" := by rw [hty]; decide
    refine ⟨leaveChannel h e.Channel e.From, by simp [handleEvent, hty],
      leaveChannel_mem _ _ _, leaveChannel_clients _ _ _, nodup_keys_leaveChannel _ _ _ hkeys,
      ?_, ?_⟩
    · intro e' he' x hx hname
      rw [leaveChannel_mem] at hname
      rw [entries_of_subscribers _ (nodup_keys_leaveChannel _ _ _ hkeys) e' he', hfrom,
        own_leave h c e.Channel hsubs] at hx
      split at hx
      · exact hsubs _ x ((mem_setDelete _ _ _).mp hx).1 hname
      · exact hsubs _ x hx hname
    · intro ch'
      rw [hfrom, own_leave h c e.Channel hsubs, if_neg hne]

theorem own_step_indexed (h h' : Hub) (c : ClientPtr) (e : Event)
    (hkeys : (h.channels.map Prod.fst).Nodup) (hkeys' : (h'.channels.map Prod.fst).Nodup)
    (hsubs : ∀ ch', h'.subscribers ch'
      = if e.Channel = ch' then
          (if e.Type_ = "join_channel" then setInsert (h.subscribers e.Channel) c
            else setDelete (h.subscribers e.Channel) c)
        else h.subscribers ch') :
    indexedChannels h' c
        = (if e.Type_ = "join_channel" then insert e.Channel (indexedChannels h c)
            else (indexedChannels h c).erase e.Channel) ∧
      ∀ x, x ≠ c → ∀ ch', x ∈ h'.subscribers ch' ↔ x ∈ h.subscribers ch' := by
  constructor
  · ext ch'
    rw [mem_indexedChannels h' c ch' hkeys', hsubs ch']
    by_cases hj : e.Type_ = "join_channel"
    · simp only [hj, if_true, Finset.mem_insert, mem_indexedChannels h c _ hkeys]
      by_cases hcc : e.Channel = ch'
      · simp [hcc, mem_setInsert]
      · have hcc' : ¬ ch' = e.Channel := fun e' => hcc e'.symm
        simp [hcc, hcc']
    · simp only [hj, if_false, Finset.mem_erase, mem_indexedChannels h c _ hkeys]
      by_cases hcc : e.Channel = ch'
      · simp [hcc, mem_setDelete]
      · have hcc' : ¬ ch' = e.Channel := fun e' => hcc e'.symm
        simp [hcc, hcc']
  · intro x hx ch'
    rw [hsubs ch']
    by_cases hcc : e.Channel = ch'
    · subst hcc
      by_cases hj : e.Type_ = "join_channel"
      · simp [hj, mem_setInsert, hx]
      · simp [hj, mem_setDelete, hx]
    · simp [hcc]

theorem own_run (c : ClientPtr) :
    ∀ (events : List (Event × Bytes)) (h : Hub), c ∈ h.clients →
      (h.channels.map Prod.fst).Nodup →
      (∀ x ∈ h.clients, (h.mem x).Username = (h.mem c).Username → x = c) →
      (∀ e ∈ h.channels, ∀ x ∈ e.2, (h.mem x).Username = (h.mem c).Username → x = c) →
      (∀ e ∈ events, (e.1.Type_ = "join_channel" ∨ e.1.Type_ = "leave_channel") ∧
        e.1.From = (h.mem c).Username) →
      ∃ h', runActions h (events.map (fun e => Action.event e.1 e.2)) = Outcome.ok h' ∧
        h'.mem = h.mem ∧ h'.clients = h.clients ∧
        indexedChannels h' c
          = netSubscriptions (indexedChannels h c) (events.map Prod.fst) ∧
        ∀ x, x ≠ c → ∀ ch, x ∈ h'.subscribers ch ↔ x ∈ h.subscribers ch
  | [], h, _, _, _, _, _ => ⟨h, rfl, rfl, rfl, rfl, fun _ _ _ => Iff.rfl⟩
  | e :: rest, h, hreg, hkeys, hregistry, hindex, hev => by
    obtain ⟨hty, hfrom⟩ := hev e (List.mem_cons_self _ _)
    obtain ⟨h1, hrun1, hmem1, hcl1, hkeys1, hindex1, hsubs1⟩ :=
      own_step h c e.1 e.2 hreg hkeys hregistry hindex hty hfrom
    obtain ⟨hidx, hframe⟩ := own_step_indexed h h1 c e.1 hkeys hkeys1 hsubs1
    obtain ⟨h2, hrun2, hmem2, hcl2, hidx2, hframe2⟩ := own_run c rest h1
      (hcl1 ▸ hreg) hkeys1
      (by rw [hcl1, hmem1]; exact hregistry) hindex1
      (by
        intro x hx
        rw [hmem1]
        exact hev x (List.mem_cons_of_mem _ hx))
    refine ⟨h2, ?_, hmem2.trans hmem1, hcl2.trans hcl1, ?_, ?_⟩
    · simp only [List.map_cons, runActions, Action.apply, hrun1]
      exact hrun2
    · rw [hidx2, hidx]
      simp only [List.map_cons, netSubscriptions, List.foldl_cons]
    · intro x hx ch
      exact (hframe2 x hx ch).trans (hframe x hx ch)

theorem own_leave_noop (h : Hub) (c : ClientPtr) (e : Event) (raw : Bytes)
    (hindex : ∀ e ∈ h.channels, ∀ x ∈ e.2, (h.mem x).Username = (h.mem c).Username → x = c)
    (hty : e.Type_ = "leave_channel") (hfrom : e.From = (h.mem c).Username)
    (hnot : c ∉ h.subscribers e.Channel)
    (hentry : mapGet h.channels e.Channel = none ∨ h.subscribers e.Channel ≠ []) :
    handleEvent h e raw = Outcome.ok h := by
  have hne : ¬ e.Type_ = "join_channel" := by rw [hty]; decide
  rw [handleEvent, if_neg hne, if_pos hty, hfrom]
  congr 1
  unfold leaveChannel
  cases hget : mapGet h.channels e.Channel with
  | none => rfl
  | some l =>
    have hl : h.subscribers e.Channel = l := by simp [Hub.subscribers, hget]
    have hne' : l ≠ [] := by
      rcases hentry with h1 | h1
      · rw [hget] at h1; cases h1
      · rwa [hl] at h1
    have hfind : l.find? (fun x => decide ((h.mem x).Username = (h.mem c).Username)) = none :=
      find?_absent _ _ c (hl ▸ hnot)
        (fun x hx hpx => own_name_subscribers h c hindex e.Channel x (hl ▸ hx)
          (by simpa using hpx))
    have hlen : ¬ l.length = 0 := fun e0 => hne' (List.eq_nil_of_length_eq_zero e0)
    simp only [hfind, hlen, if_false, mapSet_eq_self _ _ _ hget]

theorem fanOut_nodupKeys (ch : String) (m : Bytes) :
    ∀ (l : List ClientPtr) (h : Hub), (h.channels.map Prod.fst).Nodup →
      ((fanOut ch m l h).hub.channels.map Prod.fst).Nodup
  | [], h, hn => by simpa [fanOut, Outcome.hub] using hn
  | client :: rest, h, hn => by
    unfold fanOut
    cases (h.mem client).Send.trySend m with
    | sent q => exact fanOut_nodupKeys ch m rest _ hn
    | full =>
      simp only
      cases (h.mem client).Send.close with
      | none => simpa [Outcome.hub] using hn
      | some q => exact fanOut_nodupKeys ch m rest _ (nodup_keys_mapSet _ _ _ hn)
    | panic => simpa [Outcome.hub] using hn

theorem apply_nodupKeys (h : Hub) (a : Action) (hn : (h.channels.map Prod.fst).Nodup) :
    ((a.apply h).hub.channels.map Prod.fst).Nodup := by
  cases a with
  | connect p username => exact hn
  | unregister p =>
    simp only [Action.apply, unregister]
    split
    · cases (h.mem p).Send.close with
      | none => exact hn
      | some q =>
        have hsub : List.Sublist
            (((h.channels.map (fun e => (e.1, setDelete e.2 p))).filter
              (fun e => decide (e.2.length ≠ 0))).map Prod.fst)
            ((h.channels.map (fun e => (e.1, setDelete e.2 p))).map Prod.fst) :=
          (List.filter_sublist _).map _
        have hkeys : (h.channels.map (fun e => (e.1, setDelete e.2 p))).map Prod.fst
            = h.channels.map Prod.fst := by
          simp [List.map_map, Function.comp_def]
        rw [hkeys] at hsub
        exact hn.sublist hsub
    · exact hn
  | event e raw =>
    have hb : ∀ ch, ((broadcastToChannel h ch raw).hub.channels.map Prod.fst).Nodup := by
      intro ch
      unfold broadcastToChannel
      cases mapGet h.channels ch with
      | none => exact hn
      | some l => exact fanOut_nodupKeys ch raw l h hn
    simp only [Action.apply, handleEvent]
    split
    · exact nodup_keys_joinChannel _ _ _ hn
    · split
      · exact nodup_keys_leaveChannel _ _ _ hn
      · split
        · exact hb _
        · split
          · exact hb _
          · split
            · exact hb _
            · exact hn
  | writePump p => exact hn
  | reorder clients channels =>
    simp only [Action.apply]
    split
    · rename_i hp
      show (channels.map Prod.fst).Nodup
      rw [sameIndex_keys _ _ hp.2]
      exact hn
    · exact hn

/-- Each channel has one entry in every hub reached from `NewHub`, whatever the sequence
of actions. -/
theorem nodupKeys_of_run :
    ∀ (acts : List Action) (h : Hub), (h.channels.map Prod.fst).Nodup →
      ((runActions h acts).hub.channels.map Prod.fst).Nodup
  | [], _, hn => hn
  | a :: rest, h, hn => by
    have h1 := apply_nodupKeys h a hn
    unfold runActions
    cases hout : a.apply h with
    | ok h' =>
      rw [hout] at h1
      exact nodupKeys_of_run rest h' h1
    | panic h' =>
      rw [hout] at h1
      exact h1

/-- C5 (counterexample): two hubs on which a leave for a channel that the connection
never joined changes the hub state, and one on which a join misses the net effect.
In the first, A is the only registered connection and "general" has an entry left
empty by a shed subscriber: A's leave for "general" removes the entry. In the
second, connections 1 and 2 both carry the display name "A" and 1 is subscribed to
"general": the leave of connection 2, which is not indexed under "general", removes
connection 1. In the third, both are idle and connection 2 sends a join for
"general": the net effect puts "general" in its set, but it is connection 1 that the
hub subscribes. -/
theorem c5_leave_without_join_changes_hub :
    (leftoverEntryHub.clients = [1] ∧ leftoverEntryHub.channels = [("general", [])] ∧
      "general" ∉ indexedChannels leftoverEntryHub 1 ∧
      (handleEvent leftoverEntryHub
        (mkEvent "leave_channel" "general" "A") "leave").hub.channels = []) ∧
    (sameNameHub.clients = [1, 2] ∧ (sameNameHub.mem 1).Username = "A" ∧
      (sameNameHub.mem 2).Username = "A" ∧ sameNameHub.channels = [("general", [1])] ∧
      "general" ∉ indexedChannels sameNameHub 2 ∧
      (handleEvent sameNameHub
        (mkEvent "leave_channel" "general" "A") "leave").hub.channels = []) ∧
    (sameNameIdleHub.clients = [1, 2] ∧ sameNameIdleHub.channels = [] ∧
      "general" ∈ netSubscriptions (indexedChannels sameNameIdleHub 2)
        [mkEvent "join_channel" "general" "A"] ∧
      "general" ∉ indexedChannels
        (handleEvent sameNameIdleHub (mkEvent "join_channel" "general" "A") "join").hub 2) := by
  decide

/-- C5 (amended): let `c` be a registered connection whose display name no other
connection in the registry or in a subscriber set carries (each channel having one
entry, as in every hub reached from `NewHub`), and let every event of a finite
sequence be a `join_channel` or `leave_channel` stamped with `c`'s name. Handling the
sequence never panics; the set of channels under which `c` is indexed afterwards is
the net effect of the sequence (join inserts, leave erases) on the set under which
it was indexed before; the registry and the membership of every other connection in
every subscriber set are unchanged. Handling a join twice gives the hub that
handling it once gives. A leave for a channel under which `c` is not indexed gives
back the same hub when the channel has no entry or a non-empty subscriber set. -/
theorem c5_join_leave_net_effect (h : Hub) (c : ClientPtr) (events : List (Event × Bytes))
    (hreg : c ∈ h.clients) (hkeys : (h.channels.map Prod.fst).Nodup)
    (hregistry : ∀ x ∈ h.clients, (h.mem x).Username = (h.mem c).Username → x = c)
    (hindex : ∀ e ∈ h.channels, ∀ x ∈ e.2, (h.mem x).Username = (h.mem c).Username → x = c)
    (hev : ∀ e ∈ events,
      (e.1.Type_ = "join_channel" ∨ e.1.Type_ = "leave_channel") ∧
        e.1.From = (h.mem c).Username) :
    (runActions h (events.map (fun e => Action.event e.1 e.2))).isOk = true ∧
    indexedChannels (runActions h (events.map (fun e => Action.event e.1 e.2))).hub c
      = netSubscriptions (indexedChannels h c) (events.map Prod.fst) ∧
    (runActions h (events.map (fun e => Action.event e.1 e.2))).hub.clients = h.clients ∧
    (∀ x, x ≠ c → ∀ channelID,
      x ∈ (runActions h (events.map (fun e => Action.event e.1 e.2))).hub.subscribers channelID
        ↔ x ∈ h.subscribers channelID) ∧
    (∀ (e : Event) (raw : Bytes), e.Type_ = "join_channel" →
      handleEvent (handleEvent h e raw).hub e raw = handleEvent h e raw) ∧
    (∀ (e : Event) (raw : Bytes), e.Type_ = "leave_channel" →
      e.From = (h.mem c).Username → e.Channel ∉ indexedChannels h c →
      (mapGet h.channels e.Channel = none ∨ h.subscribers e.Channel ≠ []) →
      handleEvent h e raw = Outcome.ok h) := by
  obtain ⟨h', hrun, _, hcl, hidx, hframe⟩ := own_run c events h hreg hkeys hregistry hindex hev
  rw [hrun]
  refine ⟨rfl, hidx, hcl, hframe, ?_, ?_⟩
  · intro e raw he
    simp [handleEvent, he, Outcome.hub, joinChannel_idem]
  · intro e raw hty hfrom hnot hentry
    exact own_leave_noop h c e raw hindex hty hfrom
      (fun hc => hnot ((mem_indexedChannels h c e.Channel hkeys).mpr hc)) hentry

/-- C5 witness: A and B are both subscribed to "general"; A joins "random", leaves
"general", leaves "dev" (never joined) and joins "random" again. -/
theorem c5_join_leave_net_effect_witness :
    (1 ∈ bothJoinedHub.clients ∧ (bothJoinedHub.channels.map Prod.fst).Nodup ∧
      (∀ x ∈ bothJoinedHub.clients,
        (bothJoinedHub.mem x).Username = (bothJoinedHub.mem 1).Username → x = 1) ∧
      (∀ e ∈ bothJoinedHub.channels, ∀ x ∈ e.2,
        (bothJoinedHub.mem x).Username = (bothJoinedHub.mem 1).Username → x = 1)) ∧
    indexedChannels
        (runActions bothJoinedHub (joinLeaveEvents.map (fun e => Action.event e.1 e.2))).hub 1
      = netSubscriptions (indexedChannels bothJoinedHub 1) (joinLeaveEvents.map Prod.fst) ∧
    (2 ∈ (runActions bothJoinedHub
          (joinLeaveEvents.map (fun e => Action.event e.1 e.2))).hub.subscribers "general"
      ↔ 2 ∈ bothJoinedHub.subscribers "general") :=
  ⟨⟨by decide, by decide, by decide, by decide⟩,
    (c5_join_leave_net_effect bothJoinedHub 1 joinLeaveEvents (by decide) (by decide)
      (by decide) (by decide) (by decide)).2.1,
    (c5_join_leave_net_effect bothJoinedHub 1 joinLeaveEvents (by decide) (by decide)
      (by decide) (by decide) (by decide)).2.2.2.1 2 (by decide) "general"⟩


/-! ## Sender stamping -/

/-- C7: when a frame decodes to the event `e` on a connection with display name
`client.Username`, the payload sent to the hub is the encoding of an event whose
`From` is that display name, whose `Timestamp` is the receipt time and whose type,
channel, content and data are those of `e`; and any other frame whose event agrees
with `e` on type, channel, content and data is forwarded as the same payload,
whatever `From` (and timestamp) the client wrote. -/
theorem c7_sender_stamping (unmarshal : Bytes → Option Event)
    (marshal : Event → Option Bytes) (client : Client) (now : Int) (message : Bytes)
    (e : Event) (hdec : unmarshal message = some e) :
    readPumpFrame unmarshal marshal client now message
        = marshal (stampSender e client now) ∧
      (stampSender e client now).From = client.Username ∧
      (stampSender e client now).Timestamp = now ∧
      (stampSender e client now).Type_ = e.Type_ ∧
      (stampSender e client now).Channel = e.Channel ∧
      (stampSender e client now).Content = e.Content ∧
      (stampSender e client now).Data = e.Data ∧
      ∀ (message' : Bytes) (e' : Event), unmarshal message' = some e' →
        e'.Type_ = e.Type_ → e'.Channel = e.Channel → e'.Content = e.Content →
        e'.Data = e.Data →
        readPumpFrame unmarshal marshal client now message'
          = readPumpFrame unmarshal marshal client now message := by
  have hfwd : ∀ (msg : Bytes) (ev : Event), unmarshal msg = some ev →
      readPumpFrame unmarshal marshal client now msg = marshal (stampSender ev client now) := by
    intro msg ev h
    unfold readPumpFrame
    rw [h]
    simp only
    cases marshal (stampSender ev client now) <;> rfl
  refine ⟨hfwd message e hdec, rfl, rfl, rfl, rfl, rfl, rfl, ?_⟩
  intro message' e' hdec' h1 h2 h3 h4
  rw [hfwd message e hdec, hfwd message' e' hdec']
  congr 1
  cases e
  cases e'
  simp only [stampSender] at *
  simp [h1, h2, h3, h4]

/-- C7 witness: a frame claiming to come from "mallory" on the connection of "A". -/
theorem c7_sender_stamping_witness :
    readPumpFrame (fun _ => some (mkEvent "send_message" "general" "mallory"))
        (fun ev => some ev.From) { Username := "A", Send := makeChan 256 } 1700000000 "frame"
      = (fun ev : Event => some ev.From)
          (stampSender (mkEvent "send_message" "general" "mallory")
            { Username := "A", Send := makeChan 256 } 1700000000) ∧
    (stampSender (mkEvent "send_message" "general" "mallory")
      { Username := "A", Send := makeChan 256 } 1700000000).From = "A" :=
  ⟨(c7_sender_stamping (fun _ => some (mkEvent "send_message" "general" "mallory"))
      (fun ev => some ev.From) { Username := "A", Send := makeChan 256 } 1700000000 "frame"
      (mkEvent "send_message" "general" "mallory") rfl).1,
    (c7_sender_stamping (fun _ => some (mkEvent "send_message" "general" "mallory"))
      (fun ev => some ev.From) { Username := "A", Send := makeChan 256 } 1700000000 "frame"
      (mkEvent "send_message" "general" "mallory") rfl).2.1⟩

/-! ## The client's history -/

theorem getMessages_addMessage (s : ChatState) (channelID : String) (msg : Message)
    (channelID' : String) :
    (s.AddMessage channelID msg).GetMessages channelID'
      = if channelID = channelID' then
          (if (s.GetMessages channelID ++ [msg]).length > 1000 then
            (s.GetMessages channelID ++ [msg]).drop 1
          else s.GetMessages channelID ++ [msg])
        else s.GetMessages channelID' := by
  unfold ChatState.AddMessage ChatState.GetMessages
  by_cases hc : channelID = channelID'
  · subst hc
    cases hm : s.Messages channelID with
    | none => simp [hm]
    | some l =>
      simp only [hm, Option.isNone_some, Bool.false_eq_true, if_false, Function.update_same,
        Option.getD_some, if_true]
      split <;> simp
  · have hc' : ¬ channelID' = channelID := fun e => hc e.symm
    cases hm : s.Messages channelID with
    | none =>
      simp only [hm, Option.isNone_none, if_true, Function.update_same, Option.getD_some, hc,
        if_false]
      split <;> simp [Function.update, hc']
    | some l =>
      simp only [hm, Option.isNone_some, Bool.false_eq_true, if_false, Function.update_same,
        Option.getD_some, hc]
      split <;> simp [Function.update, hc']

theorem length_getMessages_addMessage (s : ChatState) (channelID : String) (msg : Message)
    (hcap : ∀ c, (s.GetMessages c).length ≤ 1000) :
    ∀ c, ((s.AddMessage channelID msg).GetMessages c).length ≤ 1000 := by
  intro c
  rw [getMessages_addMessage]
  have := hcap channelID
  have := hcap c
  split
  · split
    · simp only [List.length_drop, List.length_append, List.length_singleton]
      omega
    · omega
  · assumption

theorem length_getMessages_addMessages (calls : List (String × Message)) :
    ∀ (s : ChatState), (∀ c, (s.GetMessages c).length ≤ 1000) →
      ∀ c, ((addMessages s calls).GetMessages c).length ≤ 1000 := by
  induction calls with
  | nil => exact fun s h => h
  | cons call rest ih =>
    intro s h
    exact ih _ (length_getMessages_addMessage s call.1 call.2 h)

/-- C9: after any sequence of `AddMessage` calls on the state of `NewChatState`, every
channel's history has at most 1000 entries; and `AddMessage` on a channel that holds
exactly 1000 entries leaves the old history without its first entry, followed by
the new message. -/
theorem c9_history_cap (username : String) (calls : List (String × Message)) :
    (∀ channelID,
      ((addMessages (NewChatState username) calls).GetMessages channelID).length ≤ 1000) ∧
    ∀ (s : ChatState) (channelID : String) (msg : Message),
      (s.GetMessages channelID).length = 1000 →
        (s.AddMessage channelID msg).GetMessages channelID
          = (s.GetMessages channelID).tail ++ [msg] := by
  constructor
  · apply length_getMessages_addMessages
    intro c
    simp [NewChatState, ChatState.GetMessages]
  · intro s channelID msg hlen
    rw [getMessages_addMessage, if_pos rfl]
    have hlen' : (s.GetMessages channelID ++ [msg]).length > 1000 := by
      simp [hlen]
    rw [if_pos hlen']
    cases hl : s.GetMessages channelID with
    | nil => simp [hl] at hlen
    | cons x xs => simp

/-- C9 witness: a message is added to a "general" history of exactly 1000 entries. -/
theorem c9_history_cap_witness :
    (fullHistory.GetMessages "general").length = 1000 ∧
      (fullHistory.AddMessage "general" sampleMessage).GetMessages "general"
        = (fullHistory.GetMessages "general").tail ++ [sampleMessage] :=
  ⟨by decide, (c9_history_cap "A" []).2 fullHistory "general" sampleMessage (by decide)⟩

/-! ## Echo suppression -/

theorem runActions_append (l1 l2 : List Action) :
    ∀ h : Hub, runActions h (l1 ++ l2)
      = (match runActions h l1 with
        | Outcome.ok h' => runActions h' l2
        | Outcome.panic h' => Outcome.panic h') := by
  induction l1 with
  | nil => intro h; rfl
  | cons a rest ih =>
    intro h
    simp only [List.cons_append, runActions]
    cases a.apply h with
    | ok h' => exact ih h'
    | panic h' => rfl

theorem addMessage_username (s : ChatState) (c : String) (msg : Message) :
    (s.AddMessage c msg).Username = s.Username := by
  unfold ChatState.AddMessage
  simp only
  split <;> split <;> rfl

theorem handleEvent_own_echo (outOfRange : ℚ → Int) (m : Model) (event : JsonObject)
    (htype : asString (jsonGet event "type") = some "send_message")
    (hfrom : (asString (jsonGet event "from")).getD "" = m.chatState.Username) :
    Model.handleEvent outOfRange m event = m := by
  simp [Model.handleEvent, htype, hfrom]

theorem handleEvent_other (outOfRange : ℚ → Int) (m : Model) (event : JsonObject)
    (htype : asString (jsonGet event "type") = some "send_message")
    (hfrom : (asString (jsonGet event "from")).getD "" ≠ m.chatState.Username) :
    (Model.handleEvent outOfRange m event).chatState
      = m.chatState.AddMessage ((asString (jsonGet event "channel")).getD "")
          (incomingMessage outOfRange event) := by
  simp [Model.handleEvent, htype, hfrom]

theorem outcome_eq_ok_of_isOk (o : Outcome) (h : o.isOk = true) : o = Outcome.ok o.hub := by
  cases o with
  | ok h' => rfl
  | panic h' => simp [Outcome.isOk] at h

theorem afterSend_queues (stamped : Event) (payload : Bytes)
    (htype : stamped.Type_ = "send_message") (hchan : stamped.Channel = "general") :
    ((afterSend stamped payload).mem 1).Send.buf = [payload] ∧
      ((afterSend stamped payload).mem 2).Send.buf = [payload] := by
  have hjoin : runActions NewHub bothJoined = Outcome.ok bothJoinedHub :=
    outcome_eq_ok_of_isOk _ (by decide)
  have hsubs : bothJoinedHub.subscribers "general" = [1, 2] := by decide
  have h1 : (bothJoinedHub.mem 1).Send = makeChan 256 := by decide
  have h2 : (bothJoinedHub.mem 2).Send = makeChan 256 := by decide
  have hrun : afterSend stamped payload = (handleEvent bothJoinedHub stamped payload).hub := by
    unfold afterSend
    rw [runActions_append, hjoin]
    simp only [runActions, Action.apply]
    cases handleEvent bothJoinedHub stamped payload <;> rfl
  have hdel := broadcast_delivers_once bothJoinedHub stamped payload
    (Or.inl htype) (by rw [hchan, hsubs]; decide)
    (by
      rw [hchan, hsubs]
      intro c hc
      simp only [List.mem_cons, List.mem_singleton, List.not_mem_nil, or_false] at hc
      rcases hc with hc | hc
      · rw [hc, h1]; rfl
      · rw [hc, h2]; rfl)
  rw [hrun]
  constructor
  · rw [hdel.2.1 1 (by rw [hchan, hsubs]; decide) (by rw [h1]; decide), h1]
    rfl
  · rw [hdel.2.1 2 (by rw [hchan, hsubs]; decide) (by rw [h2]; decide), h2]
    rfl

/-- C10: for every client model and every incoming `send_message` event: when the
event's `from` is the local username the model is left as it is; otherwise the chat
state becomes the result of one `AddMessage` on the event's channel with a message
that carries the event's `from`, channel and content, so that this channel's history
is the old one followed by that message (less its oldest entry when the cap of 1000
is exceeded) and every other history is unchanged. In the scenario: A and B have
joined "general"; A types "hi" and presses enter, which appends A's own copy and
hands the frame to the connection; the server stamps the decoded frame with A's name
and the hub enqueues its payload once for A and once for B; the payload decodes at the
clients to a `send_message` from "A" on "general" with content "hi". Then B's client,
receiving what is in B's queue, has exactly one entry in "general", from "A" with
content "hi"; and A's client, receiving what is in A's queue, keeps the state it had
after its own append, whose "general" history is that one local copy. -/
theorem c10_echo_suppression (outOfRange : ℚ → Int) (m : Model) (event : JsonObject)
    (htype : asString (jsonGet event "type") = some "send_message") :
    ((asString (jsonGet event "from")).getD "" = m.chatState.Username →
      Model.handleEvent outOfRange m event = m) ∧
    ((asString (jsonGet event "from")).getD "" ≠ m.chatState.Username →
      (Model.handleEvent outOfRange m event).chatState
          = m.chatState.AddMessage ((asString (jsonGet event "channel")).getD "")
              (incomingMessage outOfRange event) ∧
        (incomingMessage outOfRange event).Username
          = (asString (jsonGet event "from")).getD "" ∧
        (incomingMessage outOfRange event).ChannelID
          = (asString (jsonGet event "channel")).getD "" ∧
        (incomingMessage outOfRange event).Content
          = (asString (jsonGet event "content")).getD "" ∧
        (Model.handleEvent outOfRange m event).chatState.GetMessages
            ((asString (jsonGet event "channel")).getD "")
          = (if (m.chatState.GetMessages ((asString (jsonGet event "channel")).getD "")
                  ++ [incomingMessage outOfRange event]).length > 1000 then
              (m.chatState.GetMessages ((asString (jsonGet event "channel")).getD "")
                ++ [incomingMessage outOfRange event]).drop 1
            else
              m.chatState.GetMessages ((asString (jsonGet event "channel")).getD "")
                ++ [incomingMessage outOfRange event]) ∧
        ∀ channelID, channelID ≠ (asString (jsonGet event "channel")).getD "" →
          (Model.handleEvent outOfRange m event).chatState.GetMessages channelID
            = m.chatState.GetMessages channelID) ∧
    (∀ (unmarshalObject : Bytes → Option JsonObject) (e : Event) (serverNow now : Int)
        (payload : Bytes) (echo : JsonObject),
      e.Type_ = "send_message" → e.Channel = "general" →
      unmarshalObject payload = some echo →
      asString (jsonGet echo "type") = some "send_message" →
      asString (jsonGet echo "from") = some (stampSender e (newClient "A") serverNow).From →
      asString (jsonGet echo "channel") = some "general" →
      asString (jsonGet echo "content") = some "hi" →
      ((afterSend (stampSender e (newClient "A") serverNow) payload).mem 1).Send.buf
          = [payload] ∧
        ((afterSend (stampSender e (newClient "A") serverNow) payload).mem 2).Send.buf
          = [payload] ∧
        (Model.receiveAll unmarshalObject outOfRange (clientOf "B" "")
            ((afterSend (stampSender e (newClient "A") serverNow) payload).mem 2).Send.buf
          ).chatState.GetMessages "general" = [incomingMessage outOfRange echo] ∧
        (incomingMessage outOfRange echo).Username = "A" ∧
        (incomingMessage outOfRange echo).ChannelID = "general" ∧
        (incomingMessage outOfRange echo).Content = "hi" ∧
        ((clientOf "A" "hi").updateEnter now).outgoing = [sendMessageFrame "general" "hi"] ∧
        ((clientOf "A" "hi").updateEnter now).chatState.GetMessages "general"
          = [{ ID := "", ChannelID := "general", AuthorID := "", Username := "A",
               Content := "hi", Timestamp := some now }] ∧
        Model.receiveAll unmarshalObject outOfRange ((clientOf "A" "hi").updateEnter now)
            ((afterSend (stampSender e (newClient "A") serverNow) payload).mem 1).Send.buf
          = (clientOf "A" "hi").updateEnter now) := by
  refine ⟨handleEvent_own_echo outOfRange m event htype, ?_, ?_⟩
  · intro hne
    have hrun := handleEvent_other outOfRange m event htype hne
    refine ⟨hrun, rfl, rfl, rfl, ?_, ?_⟩
    · rw [hrun, getMessages_addMessage, if_pos rfl]
    · intro channelID hc
      rw [hrun, getMessages_addMessage, if_neg (fun e => hc e.symm)]
  · intro unmarshalObject e serverNow now payload echo hty hch hdec htype' hfrom hchan hcont
    have hq := afterSend_queues (stampSender e (newClient "A") serverNow) payload hty hch
    have hfromA : (asString (jsonGet echo "from")).getD "" = "A" := by
      rw [hfrom]; rfl
    have hA : (clientOf "A" "hi").updateEnter now
        = { chatState :=
              (clientOf "A" "hi").chatState.AddMessage "general"
                { ID := "", ChannelID := "general", AuthorID := "", Username := "A",
                  Content := "hi", Timestamp := some now }
            input := ""
            outgoing := [sendMessageFrame "general" "hi"] } := by
      simp [Model.updateEnter, clientOf, NewChatState]
    have hAname : ((clientOf "A" "hi").updateEnter now).chatState.Username = "A" := by
      rw [hA]
      simp only [addMessage_username]
      rfl
    refine ⟨hq.1, hq.2, ?_, ?_, ?_, ?_, ?_, ?_, ?_⟩
    · rw [hq.2]
      simp only [Model.receiveAll, List.foldl_cons, List.foldl_nil, Model.updateBytes, hdec]
      rw [handleEvent_other outOfRange _ echo htype'
        (by rw [hfromA]; decide), getMessages_addMessage]
      simp [hchan, clientOf, NewChatState, ChatState.GetMessages]
    · simp [incomingMessage, hfromA]
    · simp [incomingMessage, hchan]
    · simp [incomingMessage, hcont]
    · rw [hA]
    · rw [hA]
      simp only
      rw [getMessages_addMessage, if_pos rfl]
      simp [clientOf, NewChatState, ChatState.GetMessages]
    · rw [hq.1]
      simp only [Model.receiveAll, List.foldl_cons, List.foldl_nil, Model.updateBytes, hdec]
      exact handleEvent_own_echo outOfRange _ echo htype' (by rw [hfromA, hAname])

/-- C10 witness: the echo of A's own "hi" arrives at A's client (on amd64). -/
theorem c10_echo_suppression_witness :
    asString (jsonGet hiFromA "type") = some "send_message" ∧
      ((asString (jsonGet hiFromA "from")).getD "" = (clientOf "A" "").chatState.Username →
        Model.handleEvent amd64OutOfRange (clientOf "A" "") hiFromA = clientOf "A" "") ∧
      (Model.receiveAll decodeHi amd64OutOfRange (clientOf "B" "")
          ((afterSend (stampSender (mkEvent "send_message" "general" "") (newClient "A")
            1700000000) "hi from A").mem 2).Send.buf).chatState.GetMessages "general"
        = [incomingMessage amd64OutOfRange hiFromA] :=
  ⟨by decide, (c10_echo_suppression amd64OutOfRange (clientOf "A" "") hiFromA (by decide)).1,
    ((c10_echo_suppression amd64OutOfRange (clientOf "A" "") hiFromA (by decide)).2.2 decodeHi
      (mkEvent "send_message" "general" "") 1700000000 1700000001 "hi from A" hiFromA
      rfl rfl (by simp [decodeHi]) (by decide) (by decide) (by decide) (by decide)).2.2.1⟩

/-! ## Unregistering twice -/

/-- C11: for every hub and connection `c` (the send queue of `c` being open if `c` is
registered, as it is for every registered connection): processing `unregister(c)`
runs without a panic; processing it a second time returns the hub of the first
without a panic, although the queue of `c` is closed by then (so that a second
`close` would have panicked); and when `c` is not in the registry, `unregister(c)`
returns the hub it was given. -/
theorem c11_unregister_idempotent (h : Hub) (c : ClientPtr)
    (hopen : c ∈ h.clients → (h.mem c).Send.closed = false) :
    (unregister h c).isOk = true ∧
      unregister (unregister h c).hub c = Outcome.ok (unregister h c).hub ∧
      (c ∈ h.clients → ((unregister h c).hub.mem c).Send.closed = true ∧
        ((unregister h c).hub.mem c).Send.close = none) ∧
      (c ∉ h.clients → unregister h c = Outcome.ok h) := by
  have hnot : ∀ h' : Hub, c ∉ h'.clients → unregister h' c = Outcome.ok h' := by
    intro h' hc
    simp [unregister, hc]
  by_cases hreg : c ∈ h.clients
  · have hrun : unregister h c = Outcome.ok
        { mem := (h.setSend c { (h.mem c).Send with closed := true }).mem
          clients := setDelete h.clients c
          channels := (h.channels.map (fun e => (e.1, setDelete e.2 c))).filter
            (fun e => decide (e.2.length ≠ 0)) } := by
      simp [unregister, hreg, Chan.close, hopen hreg]
    have hgone : c ∉ (unregister h c).hub.clients := by
      rw [hrun]
      exact fun hx => ((mem_setDelete _ _ _).mp hx).2 rfl
    refine ⟨by rw [hrun]; rfl, hnot _ hgone, ?_, fun hc => absurd hreg hc⟩
    intro _
    rw [hrun]
    simp [Outcome.hub, Hub.setSend, Chan.close]
  · rw [hnot h hreg]
    exact ⟨rfl, hnot h hreg, fun hc => absurd hc hreg, fun _ => rfl⟩

/-- C11 witness: A (address 1), registered and subscribed to two channels, is
unregistered twice. -/
theorem c11_unregister_idempotent_witness :
    (1 ∈ (runActions NewHub (slowConsumer 0)).hub.clients →
      ((runActions NewHub (slowConsumer 0)).hub.mem 1).Send.closed = false) ∧
    unregister (unregister (runActions NewHub (slowConsumer 0)).hub 1).hub 1
      = Outcome.ok (unregister (runActions NewHub (slowConsumer 0)).hub 1).hub :=
  ⟨fun _ => by decide,
    (c11_unregister_idempotent (runActions NewHub (slowConsumer 0)).hub 1
      (fun _ => by decide)).2.1⟩

/-! ## Malformed frames -/

theorem readPump_skip (unmarshal : Bytes → Option Event) (marshal : Event → Option Bytes)
    (client : ClientPtr) (object : Client) (message : Bytes) (now : Int)
    (hskip : readPumpFrame unmarshal marshal object now message = none)
    (post : List ReadResult) :
    ∀ pre : List ReadResult,
      readPump unmarshal marshal client object (pre ++ ReadResult.message message now :: post)
        = readPump unmarshal marshal client object (pre ++ post)
  | [] => by simp [readPump, hskip]
  | ReadResult.err :: pre => by simp [readPump]
  | ReadResult.message m t :: pre => by
    have ih := readPump_skip unmarshal marshal client object message now hskip post pre
    show readPump unmarshal marshal client object
        (ReadResult.message m t :: (pre ++ ReadResult.message message now :: post))
      = readPump unmarshal marshal client object (ReadResult.message m t :: (pre ++ post))
    simp only [readPump, ih]

/-- C12: a byte string that fails to decode as an event has no effect. In the inbound
loop of a connection nothing is forwarded for it and the loop goes on: the requests
that `readPump` sends are those it sends when the frame never arrives, so the frame
neither ends the loop nor causes an unregister request. On the hub's `Broadcast`
ingress the hub is returned as it was, without a panic: no queue, registry entry or
channel entry changes. -/
theorem c12_malformed_frame_dropped (unmarshal : Bytes → Option Event)
    (marshal : Event → Option Bytes) (h : Hub) (client : ClientPtr) (object : Client)
    (now : Int) (message : Bytes) (hbad : unmarshal message = none) :
    readPumpFrame unmarshal marshal object now message = none ∧
      (∀ pre post : List ReadResult,
        readPump unmarshal marshal client object
            (pre ++ ReadResult.message message now :: post)
          = readPump unmarshal marshal client object (pre ++ post)) ∧
      Hub.run1 unmarshal h (Request.broadcast message) = Outcome.ok h := by
  have hskip : readPumpFrame unmarshal marshal object now message = none := by
    simp [readPumpFrame, hbad]
  refine ⟨hskip, ?_, ?_⟩
  · intro pre post
    exact readPump_skip unmarshal marshal client object message now hskip post pre
  · simp [Hub.run1, hbad]

/-- C12 witness: a decoder that rejects every frame, on the hub where A is subscribed to
"general". -/
theorem c12_malformed_frame_dropped_witness :
    (fun _ : Bytes => (none : Option Event)) "not json" = none ∧
      Hub.run1 (fun _ => none) soloHub (Request.broadcast "not json") = Outcome.ok soloHub :=
  ⟨rfl,
    (c12_malformed_frame_dropped (fun _ => none) (fun ev => some ev.From) soloHub 1
      (newClient "A") 1700000000 "not json" rfl).2.2⟩

/-! ## Closed queues in the index -/

/-- C13 (evaluation at the failing input): A and B connect, A joins "general" and
"random", and B sends 257 messages to "general" while A's queue fills up. Afterwards
A appears in the subscriber set of "random" although it is not in the registry and
its send queue is closed, and the next message sent to "random" makes
`broadcastToChannel` send on that closed queue: the coordinator panics. -/
theorem c13_closed_queue_stays_indexed :
    (runActions NewHub (slowConsumer 257)).isOk = true ∧
      1 ∈ (runActions NewHub (slowConsumer 257)).hub.subscribers "random" ∧
      1 ∉ (runActions NewHub (slowConsumer 257)).hub.clients ∧
      ((runActions NewHub (slowConsumer 257)).hub.mem 1).Send.closed = true ∧
      (runActions NewHub
        (slowConsumer 257
          ++ [Action.event (mkEvent "send_message" "random" "B") "hello"])).isOk = false := by
  decide

/-! ## Unrecognised event types -/

/-- C15: an event whose type is none of `join_channel`, `leave_channel`, `send_message`,
`typing_start`, `typing_stop`, `user_joined`, `user_left` is handled without a panic
and the hub is returned as it was: registry, channel index and every send queue are
unchanged. -/
theorem c15_unrecognised_type_ignored (h : Hub) (event : Event) (rawMessage : Bytes)
    (h1 : event.Type_ ≠ "join_channel") (h2 : event.Type_ ≠ "leave_channel")
    (h3 : event.Type_ ≠ "send_message") (h4 : event.Type_ ≠ "typing_start")
    (h5 : event.Type_ ≠ "typing_stop") (h6 : event.Type_ ≠ "user_joined")
    (h7 : event.Type_ ≠ "user_left") :
    handleEvent h event rawMessage = Outcome.ok h := by
  simp [handleEvent, h1, h2, h3, h4, h5, h6, h7]

/-- C15 witness: an event with the empty type on the hub where A is subscribed to
"general". -/
theorem c15_unrecognised_type_ignored_witness :
    handleEvent soloHub (mkEvent "" "general" "A") "payload" = Outcome.ok soloHub :=
  c15_unrecognised_type_ignored soloHub (mkEvent "" "general" "A") "payload"
    (by decide) (by decide) (by decide) (by decide) (by decide) (by decide) (by decide)

/-! ## History as the tail of what was added -/

theorem addMessages_append (s : ChatState) (calls : List (String × Message))
    (call : String × Message) :
    addMessages s (calls ++ [call]) = (addMessages s calls).AddMessage call.1 call.2 := by
  simp [addMessages, List.foldl_append]

theorem tail_window_snoc (xs : List Message) (m : Message) :
    (if (xs.drop (xs.length - min xs.length 1000) ++ [m]).length > 1000 then
        (xs.drop (xs.length - min xs.length 1000) ++ [m]).drop 1
      else xs.drop (xs.length - min xs.length 1000) ++ [m])
      = (xs ++ [m]).drop ((xs ++ [m]).length - min (xs ++ [m]).length 1000) := by
  by_cases hlen : xs.length < 1000
  · have h1 : xs.length - min xs.length 1000 = 0 := by omega
    have h2 : (xs ++ [m]).length - min (xs ++ [m]).length 1000 = 0 := by
      simp only [List.length_append, List.length_singleton]; omega
    rw [h1, h2]
    simp only [List.drop_zero, List.length_append, List.length_singleton]
    rw [if_neg (by omega)]
  · have h1 : xs.length - min xs.length 1000 = xs.length - 1000 := by omega
    have h2 : (xs ++ [m]).length - min (xs ++ [m]).length 1000 = xs.length - 1000 + 1 := by
      simp only [List.length_append, List.length_singleton]; omega
    rw [h1, h2]
    have hl : (xs.drop (xs.length - 1000) ++ [m]).length > 1000 := by
      simp only [List.length_append, List.length_drop, List.length_singleton]; omega
    have hA : 1 ≤ (xs.drop (xs.length - 1000)).length := by
      simp only [List.length_drop]; omega
    have hB : xs.length - 1000 + 1 ≤ xs.length := by omega
    rw [if_pos hl, List.drop_append_of_le_length hA, List.drop_append_of_le_length hB,
      List.drop_drop]

theorem getMessages_addMessages (username : String) (channelID : String) :
    ∀ calls : List (String × Message),
      (addMessages (NewChatState username) calls).GetMessages channelID
        = (addedTo calls channelID).drop
            ((addedTo calls channelID).length - min (addedTo calls channelID).length 1000) := by
  intro calls
  induction calls using List.reverseRecOn with
  | nil => simp [addMessages, addedTo, NewChatState, ChatState.GetMessages]
  | append_singleton calls call ih =>
    rw [addMessages_append, getMessages_addMessage]
    by_cases hc : call.1 = channelID
    · have hadd : addedTo (calls ++ [call]) channelID = addedTo calls channelID ++ [call.2] := by
        simp [addedTo, List.filter_append, hc]
      rw [if_pos hc, hadd, ← tail_window_snoc, hc, ih]
    · have hadd : addedTo (calls ++ [call]) channelID = addedTo calls channelID := by
        simp [addedTo, List.filter_append, hc]
      rw [if_neg hc, hadd, ih]

/-- C14: after any sequence of `AddMessage` calls on a new chat state, the history of a
channel is the last min(n, 1000) of the n messages passed for that channel, in the
order of the calls, whatever calls for other channels are interleaved; and a call
leaves unchanged the history of every channel other than the one it names, as well
as `ActiveChannel`, `Channels` and `Username`. -/
theorem c14_history_is_ordered_tail (username : String) (calls : List (String × Message))
    (channelID : String) :
    (addMessages (NewChatState username) calls).GetMessages channelID
        = (addedTo calls channelID).drop
            ((addedTo calls channelID).length - min (addedTo calls channelID).length 1000) ∧
      ∀ (s : ChatState) (c : String) (msg : Message),
        (∀ other, other ≠ c → (s.AddMessage c msg).GetMessages other = s.GetMessages other) ∧
          (s.AddMessage c msg).ActiveChannel = s.ActiveChannel ∧
          (s.AddMessage c msg).Channels = s.Channels ∧
          (s.AddMessage c msg).Username = s.Username := by
  refine ⟨getMessages_addMessages username channelID calls, ?_⟩
  intro s c msg
  refine ⟨?_, ?_, ?_, ?_⟩
  · intro other hne
    rw [getMessages_addMessage, if_neg (fun e => hne e.symm)]
  all_goals
    unfold ChatState.AddMessage
    simp only
    split <;> split <;> rfl

/-- C14 witness: adding to "general" leaves the history of "random" as it was. -/
theorem c14_history_is_ordered_tail_witness :
    "random" ≠ "general" ∧
      (fullHistory.AddMessage "general" sampleMessage).GetMessages "random"
        = fullHistory.GetMessages "random" :=
  ⟨by decide,
    ((c14_history_is_ordered_tail "A" [] "general").2 fullHistory "general" sampleMessage).1
      "random" (by decide)⟩

/-! ## Channel cycling -/

theorem firstIndexOf_bounds (a : String) :
    ∀ (l : List Channel) (i j : Nat), firstIndexOf a l i = some j → i ≤ j ∧ j < i + l.length
  | [], _, _, h => by simp [firstIndexOf] at h
  | ch :: rest, i, j, h => by
    unfold firstIndexOf at h
    split at h
    · simp only [Option.some.injEq] at h
      simp only [List.length_cons]
      omega
    · have := firstIndexOf_bounds a rest (i + 1) j h
      simp only [List.length_cons]
      omega

theorem sliceGet_in_range (xs : List Channel) (i : Int) (h0 : 0 ≤ i) (h1 : i < xs.length) :
    ∃ ch, sliceGet xs i = some ch := by
  have hlt : i.toNat < xs.length := (Int.toNat_lt h0).mpr h1
  exact ⟨xs[i.toNat], by simp [sliceGet, h0, h1, List.getElem?_eq_getElem hlt]⟩

/-- The channel list is not empty and the selected index is within it. -/
theorem sidebar_step_in_bounds (s : Sidebar) (op : SidebarOp)
    (h0 : 0 ≤ s.selected) (h1 : s.selected < s.chatState.Channels.length) :
    ∃ s', op.apply s = some s' ∧ 0 ≤ s'.selected ∧
      s'.selected < s'.chatState.Channels.length := by
  have hpos : (0 : Int) < s.chatState.Channels.length := lt_of_le_of_lt h0 h1
  cases op with
  | next =>
    have hne : s.chatState.Channels.length ≠ 0 := by
      intro e; rw [e] at hpos; exact absurd hpos (by decide)
    have ht : Int.tmod (s.selected + 1) s.chatState.Channels.length
        = (s.selected + 1) % s.chatState.Channels.length :=
      Int.tmod_eq_emod (by omega) (by omega)
    have hlo : 0 ≤ (s.selected + 1) % (s.chatState.Channels.length : Int) :=
      Int.emod_nonneg _ (by omega)
    have hhi : (s.selected + 1) % (s.chatState.Channels.length : Int)
        < s.chatState.Channels.length := Int.emod_lt_of_pos _ hpos
    obtain ⟨ch, hch⟩ := sliceGet_in_range s.chatState.Channels _ hlo hhi
    refine ⟨{ chatState := s.chatState.SetActiveChannel ch.ID
              selected := (s.selected + 1) % s.chatState.Channels.length }, ?_, hlo, hhi⟩
    simp only [SidebarOp.apply, Sidebar.NextChannel, hne, if_false, ht, hch]
  | prev =>
    have hlo : 0 ≤ (if s.selected - 1 < 0 then (s.chatState.Channels.length : Int) - 1
        else s.selected - 1) := by
      split <;> omega
    have hhi : (if s.selected - 1 < 0 then (s.chatState.Channels.length : Int) - 1
        else s.selected - 1) < s.chatState.Channels.length := by
      split <;> omega
    obtain ⟨ch, hch⟩ := sliceGet_in_range s.chatState.Channels _ hlo hhi
    refine ⟨{ chatState := s.chatState.SetActiveChannel ch.ID
              selected := (if s.selected - 1 < 0 then (s.chatState.Channels.length : Int) - 1
                else s.selected - 1) }, ?_, hlo, hhi⟩
    simp only [SidebarOp.apply, Sidebar.PrevChannel, hch]
  | update =>
    refine ⟨s.Update, rfl, ?_⟩
    unfold Sidebar.Update
    cases hf : firstIndexOf s.chatState.ActiveChannel s.chatState.Channels 0 with
    | none => exact ⟨h0, h1⟩
    | some i =>
      have := firstIndexOf_bounds _ _ _ _ hf
      simp only
      constructor
      · exact Int.natCast_nonneg i
      · have : i < s.chatState.Channels.length := by omega
        exact_mod_cast this
  | addChannel channel =>
    refine ⟨_, rfl, h0, ?_⟩
    simp only [ChatState.AddChannel, List.length_append, List.length_singleton]
    push_cast
    omega
  | setActiveChannel channelID => exact ⟨_, rfl, h0, h1⟩

theorem sidebar_run_in_bounds :
    ∀ (ops : List SidebarOp) (s : Sidebar), 0 ≤ s.selected →
      s.selected < s.chatState.Channels.length →
      ∃ s', runSidebar s ops = some s' ∧ 0 ≤ s'.selected ∧
        s'.selected < s'.chatState.Channels.length
  | [], s, h0, h1 => ⟨s, rfl, h0, h1⟩
  | op :: rest, s, h0, h1 => by
    obtain ⟨s1, hs1, h0', h1'⟩ := sidebar_step_in_bounds s op h0 h1
    obtain ⟨s2, hs2, hb⟩ := sidebar_run_in_bounds rest s1 h0' h1'
    exact ⟨s2, by simp only [runSidebar, hs1, hs2], hb⟩

theorem sidebar_next_prev (s : Sidebar) (h0 : 0 ≤ s.selected)
    (h1 : s.selected < s.chatState.Channels.length) :
    ∃ s1, s.NextChannel = some s1 ∧
      s1.selected = (s.selected + 1) % s.chatState.Channels.length ∧
      (sliceGet s.chatState.Channels
        ((s.selected + 1) % s.chatState.Channels.length)).isSome = true ∧
      s1.chatState.ActiveChannel
        = channelIDAt s ((s.selected + 1) % s.chatState.Channels.length) ∧
      ∃ s2, s1.PrevChannel = some s2 ∧ s2.selected = s.selected ∧
        s2.chatState.ActiveChannel = channelIDAt s s.selected := by
  have hpos : (0 : Int) < s.chatState.Channels.length := lt_of_le_of_lt h0 h1
  have hne : s.chatState.Channels.length ≠ 0 := by
    intro e; rw [e] at hpos; exact absurd hpos (by decide)
  have ht : Int.tmod (s.selected + 1) s.chatState.Channels.length
      = (s.selected + 1) % s.chatState.Channels.length :=
    Int.tmod_eq_emod (by omega) (by omega)
  have hlo : 0 ≤ (s.selected + 1) % (s.chatState.Channels.length : Int) :=
    Int.emod_nonneg _ (by omega)
  have hhi : (s.selected + 1) % (s.chatState.Channels.length : Int)
      < s.chatState.Channels.length := Int.emod_lt_of_pos _ hpos
  obtain ⟨ch, hch⟩ := sliceGet_in_range s.chatState.Channels _ hlo hhi
  obtain ⟨ch0, hch0⟩ := sliceGet_in_range s.chatState.Channels _ h0 h1
  have hback : (if (s.selected + 1) % (s.chatState.Channels.length : Int) - 1 < 0 then
        (s.chatState.Channels.length : Int) - 1
      else (s.selected + 1) % (s.chatState.Channels.length : Int) - 1) = s.selected := by
    by_cases hlast : s.selected + 1 = s.chatState.Channels.length
    · rw [hlast, Int.emod_self]
      simp only [zero_sub, Left.neg_neg_iff, zero_lt_one, if_true]
      omega
    · rw [Int.emod_eq_of_lt (by omega) (by omega)]
      rw [if_neg (by omega)]
      omega
  refine ⟨{ chatState := s.chatState.SetActiveChannel ch.ID
            selected := (s.selected + 1) % s.chatState.Channels.length }, ?_, rfl, ?_, ?_, ?_⟩
  · simp only [Sidebar.NextChannel, hne, if_false, ht, hch]
  · rw [hch]; rfl
  · simp [channelIDAt, hch, ChatState.SetActiveChannel]
  · refine ⟨{ chatState := (s.chatState.SetActiveChannel ch.ID).SetActiveChannel ch0.ID
              selected := s.selected }, ?_, rfl, ?_⟩
    · simp only [Sidebar.PrevChannel, ChatState.SetActiveChannel, hback, hch0]
    · simp [channelIDAt, hch0, ChatState.SetActiveChannel]

/-- C16 (counterexample): on a new client `SetActiveChannel("dev")` makes "dev" the active
channel while the selected index stays 0; `NextChannel` followed by `PrevChannel`
then brings the selected index back to 0 but leaves "general", not "dev", as the
active channel. -/
theorem c16_active_channel_not_restored :
    (runSidebar (freshSidebar "A") [SidebarOp.setActiveChannel "dev"]).map
        (fun s => (s.chatState.ActiveChannel, s.selected)) = some ("dev", 0) ∧
      (runSidebar (freshSidebar "A")
          [SidebarOp.setActiveChannel "dev", SidebarOp.next, SidebarOp.prev]).map
        (fun s => (s.chatState.ActiveChannel, s.selected)) = some ("general", 0) := by
  decide

/-- C16 (amended): every sequence of `NextChannel`, `PrevChannel`, `Update`, `AddChannel`
and `SetActiveChannel` calls on a new client runs without a panic and ends in a state
whose channel list is not empty and whose selected index `i` satisfies
`0 ≤ i < len(Channels)`. There `PrevChannel` does not panic, and `NextChannel` does
not panic and gives selected index `(i+1) mod n` and active channel
`Channels[(i+1) mod n]`; a `PrevChannel` after it does not panic, brings the
selected index back to `i` and makes `Channels[i]` the active channel, which is the
active channel from before whenever that was `Channels[i]`. -/
theorem c16_cycling_in_bounds (username : String) (ops : List SidebarOp) :
    ∃ s, runSidebar (freshSidebar username) ops = some s ∧
      s.chatState.Channels ≠ [] ∧ 0 ≤ s.selected ∧
      s.selected < s.chatState.Channels.length ∧
      (∃ s', s.PrevChannel = some s') ∧
      ∃ s1, s.NextChannel = some s1 ∧
        s1.selected = (s.selected + 1) % s.chatState.Channels.length ∧
        (sliceGet s.chatState.Channels
          ((s.selected + 1) % s.chatState.Channels.length)).isSome = true ∧
        s1.chatState.ActiveChannel
          = channelIDAt s ((s.selected + 1) % s.chatState.Channels.length) ∧
        ∃ s2, s1.PrevChannel = some s2 ∧ s2.selected = s.selected ∧
          s2.chatState.ActiveChannel = channelIDAt s s.selected ∧
          (s.chatState.ActiveChannel = channelIDAt s s.selected →
            s2.chatState.ActiveChannel = s.chatState.ActiveChannel) := by
  obtain ⟨s, hrun, h0, h1⟩ := sidebar_run_in_bounds ops (freshSidebar username)
    (by simp [freshSidebar, NewSidebar])
    (by simp [freshSidebar, NewSidebar, NewChatState])
  have hne : s.chatState.Channels ≠ [] := by
    intro e
    rw [e] at h1
    simp only [List.length_nil, Nat.cast_zero] at h1
    omega
  obtain ⟨sp, hsp, _⟩ := sidebar_step_in_bounds s SidebarOp.prev h0 h1
  obtain ⟨s1, hs1, hsel, hsome, hact, s2, hs2, hsel2, hact2⟩ := sidebar_next_prev s h0 h1
  exact ⟨s, hrun, hne, h0, h1, ⟨sp, hsp⟩, s1, hs1, hsel, hsome, hact, s2, hs2, hsel2, hact2,
    fun h => hact2.trans h.symm⟩

end TerminalChat
